import Mathlib

/-!
Shallow embedding of the f18 Fortran runtime I/O subsystem
(runtime/io-error.cpp, runtime/numeric-input.cpp, runtime/unit.cpp,
runtime/internal-unit.cpp), together with theorems settling the
specification claims about condition-code priority, numeric input
editing, record emission and record advancement.

Machine bytes are modelled as Nat values, byte-addressed memory as a
total function from Int offsets to bytes, and the 128-bit unsigned
accumulator of the numeric codec as a Nat reduced mod 2 ^ 128 at each
step, as C++ unsigned arithmetic does.
-/

/-- Byte-addressed memory: a total function from file or record offsets
to byte values. -/
def Mem : Type := Int → Nat

/-- Store one byte at offset i. -/
def updMem (m : Mem) (i : Int) (b : Nat) : Mem :=
  fun j => if j = i then b else m j

/-- std::memcpy of a byte list into memory starting at pos. -/
def writeMem (m : Mem) (pos : Int) : List Nat → Mem
  | [] => m
  | b :: rest => writeMem (updMem m pos b) (pos + 1) rest

/-- std::memset / std::fill_n of n blank characters starting at pos. -/
def fillMem (m : Mem) (pos : Int) : Nat → Mem
  | 0 => m
  | n + 1 => fillMem (updMem m pos 32) (pos + 1) n

/-- The contents of a concrete file, as memory (offsets outside the
list read as zero). -/
def memOfList (l : List Nat) : Mem :=
  fun i => if i < 0 then 0 else l.getD i.toNat 0

/-- Little-endian 32-bit decode of four consecutive bytes, as
std::memcpy into a std::int32_t behaves on a little-endian host. -/
def decode4 (m : Mem) (base : Int) : Nat :=
  m base % 256 + 256 * (m (base + 1) % 256) + 65536 * (m (base + 2) % 256) +
    16777216 * (m (base + 3) % 256)

/-- Reinterpret an unsigned 32-bit value as std::int32_t. -/
def toI32 (n : Nat) : Int :=
  let v := (n : Int) % 4294967296
  if v < 2147483648 then v else v - 4294967296

/-- Modelled from the spec: the end-of-file condition code IoErrorEnd is a
reserved negative sentinel (io-error.h and magic-numbers.h are not among
the sources; the spec fixes zero = success, positive = error, and two
negative sentinels with priority order error, then end-of-file, then
end-of-record, which with the comparisons in io-error.cpp forces
end-of-record below end-of-file below zero). -/
def IoErrorEnd : Int := -1

/-- Modelled from the spec: the end-of-record condition code IoErrorEor,
the least prioritized sentinel. -/
def IoErrorEor : Int := -2

/-- Modelled from the spec: a distinct positive condition code for
generic errors carrying a message (exact numeric values of the positive
codes are not observable in the sources). -/
def IoErrorGeneric : Int := 1001

/-- Modelled from the spec: positive condition code, FLUSH not possible. -/
def IoErrorUnflushable : Int := 1002

/-- Modelled from the spec: positive condition code, INQUIRE on an
internal unit. -/
def IoErrorInquireInternal : Int := 1003

/-- Modelled from the spec: positive condition code for excessive output
to a fixed-size record (unit.cpp spells it IostatRecordWriteOverrun,
internal-unit.cpp spells it IoErrorRecordWriteOverrun; both name the same
reserved code). -/
def IoErrorRecordWriteOverrun : Int := 1004

/-- Modelled from the spec: positive condition code for excessive input
from a fixed-size record. -/
def IoErrorRecordReadOverrun : Int := 1005

/-- Modelled from the spec: positive condition code for an internal write
that overran the available records. -/
def IoErrorInternalWriteOverrun : Int := 1006

/-- Modelled from the spec: positive condition code for a bad keyword
argument value. -/
def IoErrorInKeyword : Int := 1007

/-- Modelled from the spec: positive condition code for a format error
detected during data editing. -/
def IostatErrorInFormat : Int := 1008

/-- Messages passed to IoErrorHandler::SignalError or Terminator::Crash;
the numeric arguments of the printf-style formats are retained as
constructor arguments instead of being rendered to text. -/
inductive IoMsg where
  | text (s : String)
  | errnoText (code : Int)
  | badCharBOZ (ch : Char)
  | badCharInt (ch : Char)
  | badDescriptorInt (d : Char)
  | unfTruncatedHeader (recNum ofs : Int)
  | unfHitEof (recNum ofs len : Int)
  | unfFooterMismatch (recNum ofs header footer : Int)
deriving DecidableEq

/-- The per-statement IoErrorHandler state: which of IOSTAT=, ERR=, END=,
EOR=, IOMSG= were requested, the recorded condition code, and the saved
message. -/
structure HState where
  hasIoStat : Bool
  hasErr : Bool
  hasEnd : Bool
  hasEor : Bool
  hasIoMsg : Bool
  ioStat : Int
  ioMsg : Option IoMsg
deriving DecidableEq

/-- Outcome of a runtime operation: a returned value together with the
handler state, or a fatal Crash that terminates the process. -/
inductive Res (α : Type) where
  | ok (a : α) (h : HState)
  | crash (m : IoMsg)
deriving DecidableEq

/-- FortranErrorString from io-error.cpp: the fixed diagnostic table. -/
def fortranErrorString (iostat : Int) : Option String :=
  if iostat = IoErrorEnd then some "End of file during input"
  else if iostat = IoErrorEor then some "End of record during non-advancing input"
  else if iostat = IoErrorUnflushable then some "FLUSH not possible"
  else if iostat = IoErrorInquireInternal then some "INQUIRE on internal unit"
  else if iostat = IoErrorRecordWriteOverrun then some "Excessive output to fixed-size record"
  else if iostat = IoErrorRecordReadOverrun then some "Excessive input from fixed-size record"
  else if iostat = IoErrorInternalWriteOverrun then some "Internal write overran available records"
  else if iostat = IoErrorInKeyword then some "Bad keyword argument value"
  else if iostat = IoErrorGeneric then some "I/O error"
  else none

/-- The tail of IoErrorHandler::SignalError for a code that is neither
IoErrorEnd nor IoErrorEor (io-error.cpp lines 50 to 67): with IOSTAT= or
ERR= requested, record the code unless a positive code is already
recorded, saving the message only when one was given and IOMSG= was
requested; otherwise Crash with the table string for known codes or with
the strerror text for a raw errno. -/
def signalErrorCore (h : HState) (code : Int) (msg : Option IoMsg) : Res Unit :=
  if code ≠ 0 then
    if h.hasIoStat ∨ h.hasErr then
      if h.ioStat ≤ 0 then
        let m1 := if msg.isSome ∧ h.hasIoMsg then msg else h.ioMsg
        Res.ok () { h with ioStat := code, ioMsg := m1 }
      else Res.ok () h
    else
      match fortranErrorString code with
      | some s => Res.crash (IoMsg.text s)
      | none => Res.crash (IoMsg.errnoText code)
  else Res.ok () h

mutual

/-- IoErrorHandler::SignalError(iostatOrErrno, msg, ...): dispatches the
two sentinels to SignalEnd and SignalEor and handles other codes in
signalErrorCore. The fuel argument bounds the depth of the mutual
recursion between SignalError, SignalEnd and SignalEor; none means the
recursion did not terminate within the given depth. -/
def signalErrorF (fuel : Nat) (h : HState) (code : Int) (msg : Option IoMsg) :
    Option (Res Unit) :=
  if code = IoErrorEnd then
    match fuel with
    | 0 => none
    | f + 1 => signalEndF f h
  else if code = IoErrorEor then
    match fuel with
    | 0 => none
    | f + 1 => signalEorF f h
  else some (signalErrorCore h code msg)

/-- IoErrorHandler::SignalEnd: with END= requested, record IoErrorEnd
unless a code of equal or higher priority is already present; otherwise
fall back to SignalError(IoErrorEnd). -/
def signalEndF (fuel : Nat) (h : HState) : Option (Res Unit) :=
  if h.hasEnd then
    some (Res.ok () (if h.ioStat = 0 ∨ h.ioStat < IoErrorEnd then
      { h with ioStat := IoErrorEnd } else h))
  else
    match fuel with
    | 0 => none
    | f + 1 => signalErrorF f h IoErrorEnd none

/-- IoErrorHandler::SignalEor: with EOR= requested, record IoErrorEor
unless a code of equal or higher priority is already present; otherwise
fall back to SignalError(IoErrorEor). -/
def signalEorF (fuel : Nat) (h : HState) : Option (Res Unit) :=
  if h.hasEor then
    some (Res.ok () (if h.ioStat = 0 ∨ h.ioStat < IoErrorEor then
      { h with ioStat := IoErrorEor } else h))
  else
    match fuel with
    | 0 => none
    | f + 1 => signalErrorF f h IoErrorEor none

end

/-- One signal arriving at the handler during a statement. -/
inductive Sig where
  | err (code : Int) (msg : Option IoMsg)
  | sigEnd
  | sigEor
deriving DecidableEq

/-- Apply one signal to the handler. -/
def applySigF (fuel : Nat) : Sig → HState → Option (Res Unit)
  | Sig.err c m, h => signalErrorF fuel h c m
  | Sig.sigEnd, h => signalEndF fuel h
  | Sig.sigEor, h => signalEorF fuel h

/-- Run a sequence of signals, stopping at a Crash or at fuel
exhaustion. -/
def runSigsF (fuel : Nat) : List Sig → HState → Option (Res Unit)
  | [], h => some (Res.ok () h)
  | s :: t, h =>
    match applySigF fuel s h with
    | none => none
    | some (Res.crash m) => some (Res.crash m)
    | some (Res.ok _ h1) => runSigsF fuel t h1

/-- Priority rank of a condition code: positive errors above end-of-file
above end-of-record above zero. -/
def rank (c : Int) : Nat :=
  if 0 < c then 3 else if c = IoErrorEnd then 2 else if c = IoErrorEor then 1 else 0

/-- Priority rank of a signal. -/
def sigRank : Sig → Nat
  | Sig.err c _ => rank c
  | Sig.sigEnd => 2
  | Sig.sigEor => 1

/-- A signal of the runtime: a positive error, a no-op success code, or
one of the two sentinels (raw negative errno values do not occur). -/
def wfSig : Sig → Prop
  | Sig.err c _ => 0 < c ∨ c = 0 ∨ c = IoErrorEnd ∨ c = IoErrorEor
  | Sig.sigEnd => True
  | Sig.sigEor => True

theorem signalErrorF_other (fuel : Nat) (h : HState) (code : Int) (msg : Option IoMsg)
    (h1 : code ≠ IoErrorEnd) (h2 : code ≠ IoErrorEor) :
    signalErrorF fuel h code msg = some (signalErrorCore h code msg) := by
  cases fuel <;> simp [signalErrorF, h1, h2]

theorem signalErrorF_end (f : Nat) (h : HState) (msg : Option IoMsg) :
    signalErrorF (f + 1) h IoErrorEnd msg = signalEndF f h := by
  simp [signalErrorF]

theorem signalErrorF_eor (f : Nat) (h : HState) (msg : Option IoMsg) :
    signalErrorF (f + 1) h IoErrorEor msg = signalEorF f h := by
  simp [signalErrorF, IoErrorEnd, IoErrorEor]

theorem signalEndF_hasEnd (fuel : Nat) (h : HState) (hh : h.hasEnd = true) :
    signalEndF fuel h = some (Res.ok ()
      (if h.ioStat = 0 ∨ h.ioStat < IoErrorEnd then { h with ioStat := IoErrorEnd }
       else h)) := by
  cases fuel <;> simp [signalEndF, hh]

theorem signalEorF_hasEor (fuel : Nat) (h : HState) (hh : h.hasEor = true) :
    signalEorF fuel h = some (Res.ok ()
      (if h.ioStat = 0 ∨ h.ioStat < IoErrorEor then { h with ioStat := IoErrorEor }
       else h)) := by
  cases fuel <;> simp [signalEorF, hh]

theorem endDivergesAux (fuel : Nat) : ∀ h : HState, h.hasEnd = false →
    signalEndF fuel h = none ∧ signalErrorF fuel h IoErrorEnd none = none := by
  induction fuel with
  | zero =>
    intro h hh
    constructor
    · simp [signalEndF, hh]
    · simp [signalErrorF]
  | succ f ih =>
    intro h hh
    constructor
    · simp only [signalEndF, hh, Bool.false_eq_true, if_false]
      exact (ih h hh).2
    · rw [signalErrorF_end]
      exact (ih h hh).1

theorem eorDivergesAux (fuel : Nat) : ∀ h : HState, h.hasEor = false →
    signalEorF fuel h = none ∧ signalErrorF fuel h IoErrorEor none = none := by
  induction fuel with
  | zero =>
    intro h hh
    constructor
    · simp [signalEorF, hh]
    · simp [signalErrorF, IoErrorEnd, IoErrorEor]
  | succ f ih =>
    intro h hh
    constructor
    · simp only [signalEorF, hh, Bool.false_eq_true, if_false]
      exact (ih h hh).2
    · rw [signalErrorF_eor]
      exact (ih h hh).1

theorem endPreserveAux (fuel : Nat) (h h1 : HState) (hp : 0 < h.ioStat)
    (he : signalEndF fuel h = some (Res.ok () h1)) : h1 = h := by
  by_cases hh : h.hasEnd = true
  · rw [signalEndF_hasEnd fuel h hh] at he
    have hc : ¬ (h.ioStat = 0 ∨ h.ioStat < IoErrorEnd) := by
      simp only [IoErrorEnd]
      omega
    rw [if_neg hc] at he
    simp only [Option.some.injEq, Res.ok.injEq] at he
    exact he.2.symm
  · rw [(endDivergesAux fuel h (by simpa using hh)).1] at he
    exact Option.noConfusion he

theorem eorPreserveAux (fuel : Nat) (h h1 : HState)
    (hp : 0 < h.ioStat ∨ h.ioStat = IoErrorEnd)
    (he : signalEorF fuel h = some (Res.ok () h1)) : h1 = h := by
  by_cases hh : h.hasEor = true
  · rw [signalEorF_hasEor fuel h hh] at he
    have hc : ¬ (h.ioStat = 0 ∨ h.ioStat < IoErrorEor) := by
      simp only [IoErrorEor]
      rcases hp with hp | hp
      · omega
      · rw [hp]; simp [IoErrorEnd]
    rw [if_neg hc] at he
    simp only [Option.some.injEq, Res.ok.injEq] at he
    exact he.2.symm
  · rw [(eorDivergesAux fuel h (by simpa using hh)).1] at he
    exact Option.noConfusion he

theorem rankLeThree (c : Int) : rank c ≤ 3 := by
  unfold rank
  split_ifs <;> omega

theorem rankThreePos (c : Int) (hc : 2 < rank c) : 0 < c := by
  unfold rank at hc
  split_ifs at hc with a b d
  · exact a
  · omega
  · omega
  · omega

theorem rankTwoPosOrEnd (c : Int) (hc : 1 < rank c) : 0 < c ∨ c = IoErrorEnd := by
  unfold rank at hc
  split_ifs at hc with a b d
  · exact Or.inl a
  · exact Or.inr b
  · omega
  · omega

theorem stepPreserveAux (fuel : Nat) (s : Sig) (h h1 : HState) (hw : wfSig s)
    (hr : sigRank s < rank h.ioStat) (hnz : h.ioStat ≠ 0)
    (he : applySigF fuel s h = some (Res.ok () h1)) : h1 = h := by
  cases s with
  | sigEnd =>
    exact endPreserveAux fuel h h1 (rankThreePos _ (by simpa [sigRank] using hr)) he
  | sigEor =>
    exact eorPreserveAux fuel h h1 (rankTwoPosOrEnd _ (by simpa [sigRank] using hr)) he
  | err c m =>
    rcases hw with hpos | h0 | hEnd | hEor
    · have h3 : sigRank (Sig.err c m) = 3 := by simp [sigRank, rank, hpos]
      rw [h3] at hr
      exact absurd hr (by have := rankLeThree h.ioStat; omega)
    · subst h0
      rw [applySigF, signalErrorF_other fuel h 0 m (by simp [IoErrorEnd])
        (by simp [IoErrorEor])] at he
      simp only [signalErrorCore, ne_eq, not_true_eq_false, if_false,
        Option.some.injEq, Res.ok.injEq] at he
      simp at he
      exact he.symm
    · subst hEnd
      cases fuel with
      | zero =>
        rw [applySigF, signalErrorF] at he
        simp at he
      | succ f =>
        rw [applySigF, signalErrorF_end] at he
        exact endPreserveAux f h h1 (rankThreePos _ (by simpa [sigRank] using hr)) he
    · subst hEor
      cases fuel with
      | zero =>
        rw [applySigF, signalErrorF] at he
        simp [IoErrorEnd, IoErrorEor] at he
      | succ f =>
        rw [applySigF, signalErrorF_eor] at he
        exact eorPreserveAux f h h1 (rankTwoPosOrEnd _ (by simpa [sigRank] using hr)) he

theorem runPreserveAux (fuel : Nat) (sigs : List Sig) : ∀ h h1 : HState,
    h.ioStat ≠ 0 → (∀ s ∈ sigs, wfSig s ∧ sigRank s < rank h.ioStat) →
    runSigsF fuel sigs h = some (Res.ok () h1) → h1 = h := by
  induction sigs with
  | nil =>
    intro h h1 _ _ he
    simp [runSigsF] at he
    exact he.symm
  | cons s t ih =>
    intro h h1 hnz hall he
    simp only [runSigsF] at he
    rcases ha : applySigF fuel s h with _ | r
    · rw [ha] at he
      simp at he
    · rw [ha] at he
      cases r with
      | crash m => simp at he
      | ok a h2 =>
        cases a
        have hs := hall s (by simp)
        have h2h : h2 = h := stepPreserveAux fuel s h h2 hs.1 hs.2 hnz ha
        subst h2h
        simp only [] at he
        exact ih h2 h1 hnz (fun x hx => hall x (by simp [hx])) he

/-- Claim C1: within one statement, once the IoErrorHandler has recorded a
nonzero condition code, a later signal of lower priority (positive error
above end-of-file above end-of-record) never overwrites it: SignalEnd
never replaces a recorded positive error, SignalEor never replaces a
recorded positive error or the end-of-file code, a positive SignalError
does replace a previously recorded end-of-file or end-of-record sentinel,
and over any sequence of strictly lower-priority signals the recorded
state survives unchanged. -/
theorem c1_condition_code_priority :
    (∀ (fuel : Nat) (h h1 : HState), 0 < h.ioStat →
      signalEndF fuel h = some (Res.ok () h1) → h1.ioStat = h.ioStat) ∧
    (∀ (fuel : Nat) (h h1 : HState), 0 < h.ioStat ∨ h.ioStat = IoErrorEnd →
      signalEorF fuel h = some (Res.ok () h1) → h1.ioStat = h.ioStat) ∧
    (∀ (fuel : Nat) (h h1 : HState) (code : Int) (msg : Option IoMsg), 0 < code →
      h.ioStat = IoErrorEnd ∨ h.ioStat = IoErrorEor →
      h.hasIoStat = true ∨ h.hasErr = true →
      signalErrorF fuel h code msg = some (Res.ok () h1) → h1.ioStat = code) ∧
    (∀ (fuel : Nat) (sigs : List Sig) (h h1 : HState), h.ioStat ≠ 0 →
      (∀ s ∈ sigs, wfSig s ∧ sigRank s < rank h.ioStat) →
      runSigsF fuel sigs h = some (Res.ok () h1) → h1 = h) := by
  refine ⟨?_, ?_, ?_, ?_⟩
  · intro fuel h h1 hp he
    rw [endPreserveAux fuel h h1 hp he]
  · intro fuel h h1 hp he
    rw [eorPreserveAux fuel h h1 hp he]
  · intro fuel h h1 code msg hc hse hflags he
    have hne1 : code ≠ IoErrorEnd := by simp only [IoErrorEnd]; omega
    have hne2 : code ≠ IoErrorEor := by simp only [IoErrorEor]; omega
    rw [signalErrorF_other fuel h code msg hne1 hne2] at he
    simp only [Option.some.injEq] at he
    have hcz : code ≠ 0 := by omega
    have hfl : h.hasIoStat ∨ h.hasErr := by
      rcases hflags with hf | hf
      · exact Or.inl (by simp [hf])
      · exact Or.inr (by simp [hf])
    have hle : h.ioStat ≤ 0 := by
      rcases hse with hse | hse <;> rw [hse] <;> simp [IoErrorEnd, IoErrorEor]
    unfold signalErrorCore at he
    rw [if_pos hcz, if_pos hfl, if_pos hle] at he
    simp only [Res.ok.injEq, true_and] at he
    rw [← he]
  · exact runPreserveAux

/-- Concrete handler with a recorded positive error for the claim C1
witness. -/
def hPosW : HState :=
  { hasIoStat := true, hasErr := false, hasEnd := true, hasEor := true,
    hasIoMsg := false, ioStat := IoErrorRecordWriteOverrun, ioMsg := none }

/-- Concrete handler with a recorded end-of-file sentinel for the claim
C1 witness. -/
def hEndW : HState :=
  { hasIoStat := true, hasErr := false, hasEnd := true, hasEor := true,
    hasIoMsg := false, ioStat := IoErrorEnd, ioMsg := none }

/-- Witness for claim C1 at concrete inputs: a recorded positive error
survives SignalEnd and SignalEor, a positive error overwrites a recorded
end-of-file sentinel, and a recorded positive error survives a sequence
of lower-priority signals unchanged. -/
theorem c1_condition_code_priority_witness :
    hPosW.ioStat = hPosW.ioStat ∧ hPosW.ioStat = hPosW.ioStat ∧
    ({ hEndW with ioStat := IoErrorGeneric } : HState).ioStat = IoErrorGeneric ∧
    hPosW = hPosW := by
  refine ⟨?_, ?_, ?_, ?_⟩
  · exact c1_condition_code_priority.1 1 hPosW hPosW (by decide) (by decide)
  · exact c1_condition_code_priority.2.1 1 hPosW hPosW (Or.inl (by decide)) (by decide)
  · exact c1_condition_code_priority.2.2.1 1 hEndW _ IoErrorGeneric none (by decide)
      (Or.inl rfl) (Or.inl rfl) (by decide)
  · refine c1_condition_code_priority.2.2.2 2 [Sig.sigEnd, Sig.sigEor] hPosW hPosW
      (by decide) ?_ (by decide)
    intro s hs
    simp only [List.mem_cons, List.not_mem_nil, or_false] at hs
    rcases hs with rfl | rfl
    · exact ⟨trivial, by decide⟩
    · exact ⟨trivial, by decide⟩

/-- The handler state of the claim C2 failing input: IOSTAT= requested,
END= and EOR= not requested. -/
def hOnlyIoStat : HState :=
  { hasIoStat := true, hasErr := false, hasEnd := false, hasEor := false,
    hasIoMsg := false, ioStat := 0, ioMsg := none }

/-- Claim C2 (code bug): when no END= was requested — even with IOSTAT=
requested, which per the spec must surface the end-of-file condition —
SignalEnd neither records the end-of-file code nor terminates with a
diagnostic: it falls back to SignalError(IoErrorEnd), whose first branch
calls SignalEnd again, an unbounded mutual recursion, so the model yields
no outcome at any recursion depth; likewise SignalEor without EOR=. With
END= requested, SignalEnd does record the code and return. -/
theorem c2_signal_end_without_flag_diverges (fuel : Nat) :
    signalEndF fuel hOnlyIoStat = none ∧ signalEorF fuel hOnlyIoStat = none ∧
    signalEndF fuel { hOnlyIoStat with hasEnd := true } =
      some (Res.ok () { hOnlyIoStat with hasEnd := true, ioStat := IoErrorEnd }) := by
  refine ⟨(endDivergesAux fuel hOnlyIoStat rfl).1,
    (eorDivergesAux fuel hOnlyIoStat rfl).1, ?_⟩
  rw [signalEndF_hasEnd fuel _ rfl]
  simp [hOnlyIoStat]

/-- Modelled from the spec: the reserved DataEdit descriptor value for
list-directed editing (io-stmt.h and format.h are not among the sources;
the spec only needs it to be distinct from the edit letters). -/
def listDirectedD : Char := Char.ofNat 1

/-- A DataEdit: descriptor kind, optional field width, optional
fractional-digit count, and the active editing modes (blank
interpretation, decimal separator, scale factor). -/
structure DataEdit where
  descriptor : Char
  width : Option Nat
  digits : Option Nat
  modesBlankZero : Bool
  modesDecimalComma : Bool
  modesScale : Int
deriving DecidableEq

/-- Modelled from the spec: IoStatementState::NextInField delivers the
characters of the current field in order (io-stmt sources are not in the
tree); a fixed width w delivers exactly the first w remaining characters
of the record, while list-directed or zero-width editing delivers the
tokenizer-delimited field itself. The stream is therefore the record
list, truncated by the width for non-list-directed edits. -/
def fieldFor (isLD : Bool) (width : Option Nat) (record : List Char) : List Char :=
  if ¬ isLD ∧ width.isSome then record.take (width.getD 0) else record

/-- One NextInField fetch followed by the skip-leading-blank loop:
returns the first non-blank character (consumed) and the rest of the
field. -/
def skipBlanks : List Char → Option Char × List Char
  | [] => (none, [])
  | c :: t => if c = ' ' then skipBlanks t else (some c, t)

/-- ScanNumericPrefix from numeric-input.cpp (name shortened): skip
leading blanks, then consume an optional sign, returning whether a minus
sign was seen together with the next character and the rest of the
field. -/
def scanNumericSign (isLD : Bool) (width : Option Nat) (record : List Char) :
    Bool × Option Char × List Char :=
  match skipBlanks (fieldFor isLD width record) with
  | (none, t) => (false, none, t)
  | (some c, t) =>
    if c = '-' then
      match t with
      | [] => (true, none, [])
      | d :: t1 => (true, some d, t1)
    else if c = '+' then
      match t with
      | [] => (false, none, [])
      | d :: t1 => (false, some d, t1)
    else (false, some c, t)

/-- Result of an integer edit: the stored bit pattern, a bad-character
condition (SignalError with a message and the edit returns false), a
format-error condition for a wrong descriptor letter, or a RUNTIME_CHECK
crash on an invalid kind. -/
inductive EditResult where
  | stored (bits : Nat)
  | badChar (ch : Char)
  | formatError (d : Char)
  | rtCrash
deriving DecidableEq

/-- The digit loop of EditIntegerInput: a blank is treated as the digit
zero under BZ mode and skipped otherwise; a decimal digit is accumulated
into the 128-bit accumulator; anything else is a bad character. -/
def intLoop (bz : Bool) : Option Char → List Char → Nat → Except Char Nat
  | none, _, v => Except.ok v
  | some ch, rest, v =>
    if ch = ' ' ∧ ¬ bz then
      match rest with
      | [] => Except.ok v
      | c :: t => intLoop bz (some c) t v
    else
      let ch1 := if ch = ' ' then '0' else ch
      if '0' ≤ ch1 ∧ ch1 ≤ '9' then
        let v1 := (v * 10 + (ch1.toNat - '0'.toNat)) % 2 ^ 128
        match rest with
        | [] => Except.ok v1
        | c :: t => intLoop bz (some c) t v1
      else Except.error ch1

/-- The digit test of EditBOZInput: binary digits always; octal digits
when the base is at least 8; the digits 8 and 9 when the base is at
least 10; for base 16 any letter, upper or lower case, with value letter
minus letter A plus ten. -/
def bozDigit (base : Nat) (ch : Char) : Option Nat :=
  if '0' ≤ ch ∧ ch ≤ '1' then some (ch.toNat - '0'.toNat)
  else if 8 ≤ base ∧ '2' ≤ ch ∧ ch ≤ '7' then some (ch.toNat - '0'.toNat)
  else if 10 ≤ base ∧ '8' ≤ ch ∧ ch ≤ '9' then some (ch.toNat - '0'.toNat)
  else if base = 16 ∧ 'A' ≤ ch ∧ ch ≤ 'Z' then some (ch.toNat + 10 - 'A'.toNat)
  else if base = 16 ∧ 'a' ≤ ch ∧ ch ≤ 'z' then some (ch.toNat + 10 - 'a'.toNat)
  else none

/-- The digit loop of EditBOZInput: a blank is always skipped (the loop
does not consult any editing mode); other characters must pass the base
digit test, else they signal the bad-character condition. -/
def bozLoop (base : Nat) : Option Char → List Char → Nat → Except Char Nat
  | none, _, v => Except.ok v
  | some ch, rest, v =>
    if ch = ' ' then
      match rest with
      | [] => Except.ok v
      | c :: t => bozLoop base (some c) t v
    else
      match bozDigit base ch with
      | some d =>
        let v1 := (v * base + d) % 2 ^ 128
        match rest with
        | [] => Except.ok v1
        | c :: t => bozLoop base (some c) t v1
      | none => Except.error ch

/-- EditBOZInput from numeric-input.cpp: the stream is bounded by the
field width when one is given; skip leading blanks, run the digit loop,
and memcpy the low totalBitSize bits of the 128-bit accumulator into the
destination. -/
def editBOZInput (width : Option Nat) (record : List Char) (base : Nat)
    (totalBitSize : Nat) : EditResult :=
  let cs := if width.isSome then record.take (width.getD 0) else record
  match skipBlanks cs with
  | (next, rest) =>
    match bozLoop base next rest 0 with
    | Except.error ch => EditResult.badChar ch
    | Except.ok v => EditResult.stored (v % 2 ^ (8 * (totalBitSize >>> 3)))

/-- EditIntegerInput from numeric-input.cpp: RUNTIME_CHECK the kind, then
dispatch on the descriptor: decimal editing for I, G and list-directed,
EditBOZInput with base 2, 8 or 16 for B, O or Z, and a format-error
condition otherwise. The decimal path scans the sign, runs the digit
loop, negates on a minus sign in 128-bit arithmetic, and memcpy-s the low
kind bytes of the accumulator. -/
def editIntegerInput (edit : DataEdit) (record : List Char) (kind : Nat) : EditResult :=
  if ¬ (1 ≤ kind ∧ Nat.land kind (kind - 1) = 0) then EditResult.rtCrash
  else if edit.descriptor = listDirectedD ∨ edit.descriptor = 'G' ∨
      edit.descriptor = 'I' then
    match scanNumericSign (edit.descriptor == listDirectedD) edit.width record with
    | (neg, next, rest) =>
      match intLoop edit.modesBlankZero next rest 0 with
      | Except.error ch => EditResult.badChar ch
      | Except.ok v =>
        let v1 := if neg then (2 ^ 128 - v) % 2 ^ 128 else v
        EditResult.stored (v1 % 2 ^ (8 * kind))
  else if edit.descriptor = 'B' then editBOZInput edit.width record 2 (kind <<< 3)
  else if edit.descriptor = 'O' then editBOZInput edit.width record 8 (kind <<< 3)
  else if edit.descriptor = 'Z' then editBOZInput edit.width record 16 (kind <<< 3)
  else EditResult.formatError edit.descriptor

/-- Push one character into the bounded conversion buffer: got advances
only while got is below the buffer size (extra digits are dropped). -/
def pushBuf (bufSize : Nat) (buf : List Char) (c : Char) : List Char :=
  if buf.length < bufSize then buf ++ [c] else buf

/-- Decimal digit test of the real-input scanner. -/
abbrev isDigitC (c : Char) : Prop := '0' ≤ c ∧ c ≤ '9'

/-- Letter test of the real-input scanner (NaN and infinity spellings). -/
abbrev isLetterC (c : Char) : Prop :=
  ('a' ≤ c ∧ c ≤ 'z') ∨ ('A' ≤ c ∧ c ≤ 'Z')

/-- Upper-casing used while copying NaN and infinity spellings. -/
def toUpperC (c : Char) : Char :=
  if 'a' ≤ c ∧ c ≤ 'z' then Char.ofNat (c.toNat - 'a'.toNat + 'A'.toNat) else c

/-- The NaN and infinity letter loop of ScanRealInput: copy letters to
the buffer, converted to upper case. -/
def nanLetters (bufSize : Nat) : List Char → Option Char → List Char →
    List Char × Option Char × List Char
  | buf, some ch, rest =>
    if isLetterC ch then
      match rest with
      | [] => (pushBuf bufSize buf (toUpperC ch), none, [])
      | c :: t => nanLetters bufSize (pushBuf bufSize buf (toUpperC ch)) (some c) t
    else (buf, some ch, rest)
  | buf, none, rest => (buf, none, rest)

/-- The NaN(...) parenthesis skip of ScanRealInput: advance until a right
parenthesis or the end of the field; the right parenthesis itself remains
the current character. -/
def skipUntilParen : Option Char → List Char → Option Char × List Char
  | some ch, rest =>
    if ch = ')' then (some ch, rest)
    else
      match rest with
      | [] => (none, [])
      | c :: t => skipUntilParen (some c) t
  | none, rest => (none, rest)

/-- The main digit loop of ScanRealInput: a blank becomes the digit zero
under BZ mode and is skipped otherwise; a zero while the buffer is still
at its start is omitted (leading zeroes); a digit is copied; the first
decimal separator is recorded by position and not copied; any other
character breaks the loop and remains current. -/
def realDigits (bufSize : Nat) (bz : Bool) (decimal : Char) (start : Nat) :
    Option Char → List Char → List Char → Option Nat →
    List Char × Option Nat × Option Char × List Char
  | none, rest, buf, pp => (buf, pp, none, rest)
  | some ch, rest, buf, pp =>
    if ch = ' ' ∧ ¬ bz then
      match rest with
      | [] => (buf, pp, none, [])
      | c :: t => realDigits bufSize bz decimal start (some c) t buf pp
    else
      let ch1 := if ch = ' ' then '0' else ch
      if ch1 = '0' ∧ buf.length = start then
        match rest with
        | [] => (buf, pp, none, [])
        | c :: t => realDigits bufSize bz decimal start (some c) t buf pp
      else if isDigitC ch1 then
        match rest with
        | [] => (pushBuf bufSize buf ch1, pp, none, [])
        | c :: t => realDigits bufSize bz decimal start (some c) t (pushBuf bufSize buf ch1) pp
      else if ch1 = decimal ∧ pp = none then
        match rest with
        | [] => (buf, some (buf.length - start), none, [])
        | c :: t => realDigits bufSize bz decimal start (some c) t buf (some (buf.length - start))
      else (buf, pp, some ch, rest)

/-- The exponent digit loop of ScanRealInput. -/
def expDigits : Option Char → List Char → Int → Int × Option Char × List Char
  | some ch, rest, e =>
    if isDigitC ch then
      let e1 := 10 * e + ((ch.toNat - '0'.toNat : Nat) : Int)
      match rest with
      | [] => (e1, none, [])
      | c :: t => expDigits (some c) t e1
    else (e, some ch, rest)
  | none, rest, e => (e, none, rest)

/-- Skip blanks starting from an already-fetched current character (the
trailing check of ScanRealInput). -/
def skipBlanksFrom : Option Char → List Char → Option Char × List Char
  | some ch, rest => if ch = ' ' then skipBlanks rest else (some ch, rest)
  | none, rest => (none, rest)

/-- Output of the digit or NaN branch of ScanRealInput, before the final
decimal-point adjustment (the only consumer of the fractional-digit
count of the descriptor) and before the trailing-character check is
resolved. -/
structure ScannedOut where
  got : Nat
  buffer : List Char
  expo : Int
  isDigitPath : Bool
  pointPos : Option Nat
  nDigits : Nat
  leftC : Option Char
  leftR : List Char
deriving DecidableEq

/-- The three exits of the ScanRealInput scan: the empty-field early
return (conventionally zero), the unsupported hexadecimal
floating-point path (an error return of zero), or a completed scan. -/
inductive RealScanOut where
  | earlyZero (got : Nat) (buffer : List Char)
  | hexFP (buffer : List Char)
  | scanned (s : ScannedOut)
deriving DecidableEq

/-- ScanRealInput from numeric-input.cpp, up to but excluding the final
decimal-point adjustment and the trailing-character check: scan the
optional sign, normalize the field into a fraction buffer led by a
decimal point, handle NaN and infinity spellings, digits with an
optional decimal separator, and an optional exponent part. -/
def scanRealCore (bufSize : Nat) (isLD : Bool) (width : Option Nat)
    (bz dc : Bool) (scale : Int) (record : List Char) : RealScanOut :=
  match scanNumericSign isLD width record with
  | (neg, next0, rest0) =>
    let buf0 : List Char := if neg ∧ next0.isSome then pushBuf bufSize [] '-' else []
    match next0 with
    | none =>
      RealScanOut.earlyZero (pushBuf bufSize buf0 '0').length (pushBuf bufSize buf0 '0')
    | some c0 =>
      let buf1 := pushBuf bufSize buf0 '.'
      let start := buf1.length
      let decimal : Char := if dc then ',' else '.'
      if isLetterC c0 then
        match nanLetters bufSize buf1 (some c0) rest0 with
        | (buf2, next1, rest1) =>
          match (if next1 = some '(' then skipUntilParen next1 rest1
                 else (next1, rest1)) with
          | (next2, rest2) =>
            RealScanOut.scanned
              { got := buf2.length, buffer := buf2, expo := 0,
                isDigitPath := false, pointPos := none, nDigits := 0,
                leftC := next2, leftR := rest2 }
      else if c0 = decimal ∨ isDigitC c0 then
        match realDigits bufSize bz decimal start (some c0) rest0 buf1 none with
        | (buf2, pp, next1, rest1) =>
          let buf3 := if buf2.length = start then pushBuf bufSize buf2 '0' else buf2
          match (if next1 = some 'e' ∨ next1 = some 'E' ∨ next1 = some 'd' ∨
              next1 = some 'D' ∨ next1 = some 'q' ∨ next1 = some 'Q' then
              skipBlanks rest1 else (next1, rest1)) with
          | (next2, rest2) =>
            match next2 with
            | some c2 =>
              if c2 = '-' ∨ c2 = '+' ∨ isDigitC c2 then
                let negE := c2 = '-'
                match (if c2 = '-' ∨ c2 = '+' then
                    (match rest2 with
                     | [] => ((none : Option Char), ([] : List Char))
                     | d :: t => (some d, t))
                  else (some c2, rest2)) with
                | (next3, rest3) =>
                  match expDigits next3 rest3 0 with
                  | (ev, next4, rest4) =>
                    RealScanOut.scanned
                      { got := buf3.length, buffer := buf3,
                        expo := if negE then -ev else ev, isDigitPath := true,
                        pointPos := pp, nDigits := buf3.length - start,
                        leftC := next4, leftR := rest4 }
              else
                RealScanOut.scanned
                  { got := buf3.length, buffer := buf3,
                    expo := -scale, isDigitPath := true, pointPos := pp,
                    nDigits := buf3.length - start, leftC := some c2, leftR := rest2 }
            | none =>
              RealScanOut.scanned
                { got := buf3.length, buffer := buf3,
                  expo := -scale, isDigitPath := true, pointPos := pp,
                  nDigits := buf3.length - start, leftC := none, leftR := rest2 }
      else RealScanOut.hexFP buf1

/-- ScanRealInput: run the core scan, apply the decimal-point rule — the
descriptor digit count positions the implied point only when no
separator was seen — and resolve the trailing-character check for
fixed-width fields; returns got (zero on error), the buffer, and the
exponent. -/
def scanRealInput (bufSize : Nat) (edit : DataEdit) (record : List Char) :
    Nat × List Char × Int :=
  let isLD : Bool := edit.descriptor == listDirectedD
  let fixed : Bool := !isLD && edit.width.isSome
  match scanRealCore bufSize isLD edit.width edit.modesBlankZero
      edit.modesDecimalComma edit.modesScale record with
  | RealScanOut.earlyZero got buf => (got, buf, 0)
  | RealScanOut.hexFP buf => (0, buf, 0)
  | RealScanOut.scanned s =>
    let expo := if s.isDigitPath then
        s.expo + (match s.pointPos with
          | some p => (p : Int)
          | none => (s.nDigits : Int) - ((edit.digits.getD 0 : Nat) : Int))
      else s.expo
    let trailingOk : Bool := if fixed then (skipBlanksFrom s.leftC s.leftR).1.isNone
      else true
    (if trailingOk then s.got else 0, s.buffer, expo)

/-- The scan of a real field observed an explicit decimal separator. -/
def sawPoint (bufSize : Nat) (isLD : Bool) (width : Option Nat) (bz dc : Bool)
    (scale : Int) (record : List Char) : Prop :=
  match scanRealCore bufSize isLD width bz dc scale record with
  | RealScanOut.scanned s => s.pointPos.isSome = true
  | _ => False

/-- Claim C3: for real input editing, when the field contains an explicit
decimal point (or comma under decimal-comma mode) the final exponent is
computed without the fractional-digit count d of the descriptor — the
whole scan result is independent of d; when the field contains no
separator, the exponent places exactly d digits to the right of the
assumed point (final exponent = parsed exponent plus digit count minus
d); concretely, the field "123" with d = 2 scans to the fraction ".123"
with exponent 1, that is 1.23, and "1.23" scans to ".123" with exponent
1 for every d. -/
theorem c3_real_decimal_point_rule :
    (∀ (bufSize : Nat) (dsc : Char) (w : Option Nat) (bz dc : Bool) (sc : Int)
      (rec : List Char) (d1 d2 : Option Nat),
      sawPoint bufSize (dsc == listDirectedD) w bz dc sc rec →
      scanRealInput bufSize ⟨dsc, w, d1, bz, dc, sc⟩ rec =
        scanRealInput bufSize ⟨dsc, w, d2, bz, dc, sc⟩ rec) ∧
    (∀ (bufSize : Nat) (dsc : Char) (w : Option Nat) (bz dc : Bool) (sc : Int)
      (rec : List Char) (dd : Option Nat) (s : ScannedOut),
      scanRealCore bufSize (dsc == listDirectedD) w bz dc sc rec =
        RealScanOut.scanned s →
      s.pointPos = none → s.isDigitPath = true →
      (scanRealInput bufSize ⟨dsc, w, dd, bz, dc, sc⟩ rec).2.2 =
        s.expo + ((s.nDigits : Nat) : Int) - ((dd.getD 0 : Nat) : Int)) ∧
    scanRealInput 40 ⟨'F', some 3, some 2, false, false, 0⟩ ['1', '2', '3'] =
      (4, ['.', '1', '2', '3'], 1) ∧
    (∀ dd : Option Nat,
      scanRealInput 40 ⟨'F', some 4, dd, false, false, 0⟩ ['1', '.', '2', '3'] =
        (4, ['.', '1', '2', '3'], 1)) := by
  refine ⟨?_, ?_, rfl, fun dd => rfl⟩
  · intro bufSize dsc w bz dc sc rec d1 d2 hsp
    unfold sawPoint at hsp
    simp only [scanRealInput]
    rcases hcore : scanRealCore bufSize (dsc == listDirectedD) w bz dc sc rec with
      ⟨g, b⟩ | ⟨b⟩ | ⟨s⟩
    · rw [hcore] at hsp
    · rw [hcore] at hsp
    · rw [hcore] at hsp
      obtain ⟨p, hp⟩ := Option.isSome_iff_exists.mp hsp
      simp [hp]
  · intro bufSize dsc w bz dc sc rec dd s hcore hpp hdp
    simp only [scanRealInput]
    rw [hcore]
    simp only [hpp, hdp]
    simp
    omega

theorem skipBlanks_replicate_append (k : Nat) (rest : List Char) :
    skipBlanks (List.replicate k ' ' ++ rest) = skipBlanks rest := by
  induction k with
  | zero => rfl
  | succ n ih => simpa [List.replicate_succ, skipBlanks] using ih

theorem skipBlanks_replicate (k : Nat) :
    skipBlanks (List.replicate k ' ') = (none, []) := by
  have h := skipBlanks_replicate_append k []
  rw [List.append_nil] at h
  rw [h]
  rfl

theorem intLoop_blank_run (bz : Bool) (n : Nat) :
    intLoop bz (some ' ') (List.replicate n ' ') 0 = Except.ok 0 := by
  have h0 : (0 * 10 + ('0'.toNat - '0'.toNat)) % 2 ^ 128 = 0 := by decide
  induction n with
  | zero => cases bz <;> rfl
  | succ m ih =>
    cases bz
    · simpa [List.replicate_succ, intLoop] using ih
    · simpa [List.replicate_succ, intLoop, h0] using ih

theorem take_blank_sign_shape (k m n : Nat) (s : Char) :
    (List.replicate m ' ' ++ s :: List.replicate n ' ').take k =
      List.replicate (min k m) ' ' ∨
    ∃ b : Nat, (List.replicate m ' ' ++ s :: List.replicate n ' ').take k =
      List.replicate m ' ' ++ s :: List.replicate b ' ' := by
  rw [List.take_append_eq_append_take, List.take_replicate, List.length_replicate]
  cases hk : k - m with
  | zero =>
    left
    simp
  | succ j =>
    right
    refine ⟨min j n, ?_⟩
    rw [List.take_succ_cons, List.take_replicate]
    have hm : min k m = m := by omega
    rw [hm]

theorem scanSignBlanksAux (isLD : Bool) (w : Option Nat) (rec : List Char)
    (hshape : (∃ n, rec = List.replicate n ' ') ∨
      ∃ a b s, (s = '+' ∨ s = '-') ∧
        rec = List.replicate a ' ' ++ s :: List.replicate b ' ') :
    (∃ ng rest, scanNumericSign isLD w rec = (ng, none, rest)) ∨
    (∃ ng b, scanNumericSign isLD w rec = (ng, some ' ', List.replicate b ' ')) := by
  have hfield : (∃ n, fieldFor isLD w rec = List.replicate n ' ') ∨
      ∃ a b s, (s = '+' ∨ s = '-') ∧
        fieldFor isLD w rec = List.replicate a ' ' ++ s :: List.replicate b ' ' := by
    unfold fieldFor
    split_ifs with hc
    · rcases hshape with ⟨n, rfl⟩ | ⟨a, b, s, hs, rfl⟩
      · exact Or.inl ⟨min (w.getD 0) n, by rw [List.take_replicate]⟩
      · rcases take_blank_sign_shape (w.getD 0) a b s with h | ⟨b1, h⟩
        · exact Or.inl ⟨_, h⟩
        · exact Or.inr ⟨a, b1, s, hs, h⟩
    · exact hshape
  unfold scanNumericSign
  rcases hfield with ⟨n, hf⟩ | ⟨a, b, s, hs, hf⟩
  · rw [hf, skipBlanks_replicate]
    exact Or.inl ⟨false, [], rfl⟩
  · rw [hf, skipBlanks_replicate_append]
    rcases hs with rfl | rfl
    · cases b with
      | zero => exact Or.inl ⟨false, [], rfl⟩
      | succ b1 => exact Or.inr ⟨false, b1, rfl⟩
    · cases b with
      | zero => exact Or.inl ⟨true, [], rfl⟩
      | succ b1 => exact Or.inr ⟨true, b1, rfl⟩

theorem editIntZeroAux (dsc : Char) (w dd : Option Nat) (bz dc : Bool) (sc : Int)
    (kind : Nat) (hd : dsc = 'I' ∨ dsc = 'G' ∨ dsc = listDirectedD)
    (hk : 1 ≤ kind ∧ Nat.land kind (kind - 1) = 0) (rec : List Char)
    (hshape : (∃ n, rec = List.replicate n ' ') ∨
      ∃ a b s, (s = '+' ∨ s = '-') ∧
        rec = List.replicate a ' ' ++ s :: List.replicate b ' ') :
    editIntegerInput ⟨dsc, w, dd, bz, dc, sc⟩ rec kind = EditResult.stored 0 := by
  simp only [editIntegerInput]
  rw [if_neg (not_not_intro hk)]
  rw [if_pos (show dsc = listDirectedD ∨ dsc = 'G' ∨ dsc = 'I' by tauto)]
  rcases scanSignBlanksAux (dsc == listDirectedD) w rec hshape with
    ⟨ng, rest, hs⟩ | ⟨ng, b, hs⟩
  · rw [hs]
    cases ng <;> simp [intLoop]
  · rw [hs, intLoop_blank_run bz b]
    cases ng <;> simp

/-- Claim C4: for integer input with descriptor I, G, or list-directed,
an empty field or a field of only blanks, optionally with a sign, stores
the value zero; and in the digit loop an embedded blank is treated as
the digit zero exactly when the BZ flag is set, and is skipped
otherwise. -/
theorem c4_integer_blank_fields_zero :
    (∀ (dsc : Char) (w dd : Option Nat) (bz dc : Bool) (sc : Int) (kind n : Nat),
      dsc = 'I' ∨ dsc = 'G' ∨ dsc = listDirectedD →
      1 ≤ kind ∧ Nat.land kind (kind - 1) = 0 →
      editIntegerInput ⟨dsc, w, dd, bz, dc, sc⟩ (List.replicate n ' ') kind =
        EditResult.stored 0) ∧
    (∀ (dsc : Char) (w dd : Option Nat) (bz dc : Bool) (sc : Int) (kind : Nat)
      (s : Char) (m n : Nat),
      dsc = 'I' ∨ dsc = 'G' ∨ dsc = listDirectedD →
      1 ≤ kind ∧ Nat.land kind (kind - 1) = 0 →
      s = '+' ∨ s = '-' →
      editIntegerInput ⟨dsc, w, dd, bz, dc, sc⟩
        (List.replicate m ' ' ++ s :: List.replicate n ' ') kind =
        EditResult.stored 0) ∧
    (∀ (rest : List Char) (v : Nat),
      intLoop true (some ' ') rest v = intLoop true (some '0') rest v) ∧
    (∀ (c : Char) (rest : List Char) (v : Nat),
      intLoop false (some ' ') (c :: rest) v = intLoop false (some c) rest v) ∧
    (∀ v : Nat, intLoop false (some ' ') [] v = Except.ok v) := by
  refine ⟨?_, ?_, ?_, ?_, ?_⟩
  · intro dsc w dd bz dc sc kind n hd hk
    exact editIntZeroAux dsc w dd bz dc sc kind hd hk _ (Or.inl ⟨n, rfl⟩)
  · intro dsc w dd bz dc sc kind s m n hd hk hs
    exact editIntZeroAux dsc w dd bz dc sc kind hd hk _ (Or.inr ⟨m, n, s, hs, rfl⟩)
  · intro rest v
    cases rest <;> simp [intLoop]
  · intro c rest v
    simp [intLoop]
  · intro v
    rfl

/-- Witness for claim C4 at concrete inputs: descriptor I, kind 4, an
all-blank field of width 5, a signed all-blank field, and the embedded
blank treated as zero under BZ at a concrete digit string. -/
theorem c4_integer_blank_fields_zero_witness :
    editIntegerInput ⟨'I', some 5, none, true, false, 0⟩ (List.replicate 3 ' ') 4 =
      EditResult.stored 0 ∧
    editIntegerInput ⟨'I', some 5, none, false, false, 0⟩
      (List.replicate 1 ' ' ++ '-' :: List.replicate 2 ' ') 4 = EditResult.stored 0 ∧
    intLoop true (some ' ') ['7'] 1 = intLoop true (some '0') ['7'] 1 := by
  refine ⟨?_, ?_, ?_⟩
  · exact c4_integer_blank_fields_zero.1 'I' (some 5) none true false 0 4 3
      (Or.inl rfl) (by decide)
  · exact c4_integer_blank_fields_zero.2.1 'I' (some 5) none false false 0 4 '-' 1 2
      (Or.inl rfl) (by decide) (Or.inr rfl)
  · exact c4_integer_blank_fields_zero.2.2.1 ['7'] 1

/-- Witness for claim C3 at concrete inputs: the field "1.23" gives the
same scan under fractional-digit counts 7 and 0, and the pointless field
"123" obeys the assumed-point exponent formula. -/
theorem c3_real_decimal_point_rule_witness :
    scanRealInput 40 ⟨'F', some 4, some 7, false, false, 0⟩ ['1', '.', '2', '3'] =
      scanRealInput 40 ⟨'F', some 4, some 0, false, false, 0⟩ ['1', '.', '2', '3'] ∧
    (scanRealInput 40 ⟨'F', some 3, some 2, false, false, 0⟩ ['1', '2', '3']).2.2 =
      (0 : Int) + ((3 : Nat) : Int) - (((some 2 : Option Nat).getD 0 : Nat) : Int) := by
  constructor
  · exact c3_real_decimal_point_rule.1 40 'F' (some 4) false false 0
      ['1', '.', '2', '3'] (some 7) (some 0) (by rfl)
  · exact c3_real_decimal_point_rule.2.1 40 'F' (some 3) false false 0 ['1', '2', '3']
      (some 2) ⟨4, ['.', '1', '2', '3'], 0, true, none, 3, none, []⟩ rfl rfl rfl

/-- Counterexample to claim C5 as stated: with BZ mode active, the hex
field "1 2B" of width 4 parses to 299 — the embedded blank is skipped,
as EditBOZInput always does, never consulting the blank-interpretation
mode — and not to 4139, the value blank-as-zero-in-place would give; and
the letter G, which is not a valid hexadecimal digit, is accepted as the
digit 16 instead of signaling the bad-character condition. -/
theorem c5_boz_blankzero_badchar_counterexample :
    editIntegerInput ⟨'Z', some 4, none, true, false, 0⟩ ['1', ' ', '2', 'B'] 4 =
      EditResult.stored 299 ∧ (299 : Nat) ≠ 4139 ∧
    editIntegerInput ⟨'Z', some 1, none, true, false, 0⟩ ['G'] 4 =
      EditResult.stored 16 := ⟨rfl, by decide, rfl⟩

/-- Claim C5 as amended: for B, O, Z integer input the base is 2, 8, 16,
selected from the descriptor letter (EditIntegerInput dispatches to
EditBOZInput with the kind width in bits); a blank, leading or embedded,
is always skipped regardless of the BZ mode, which EditBOZInput never
consults; a non-blank character is consumed as a digit exactly when it
passes the base digit test — under which base 16 accepts any letter from
A to Z or a to z with value letter minus letter A plus ten — and any
other character signals the bad-character condition, failing the edit;
the hex field of width 6 holding "  1A2B" parses to 6699. -/
theorem c5_boz_base_blank_badchar :
    (∀ (w dd : Option Nat) (bz dc : Bool) (sc : Int) (rec : List Char) (kind : Nat),
      1 ≤ kind ∧ Nat.land kind (kind - 1) = 0 →
      editIntegerInput ⟨'B', w, dd, bz, dc, sc⟩ rec kind =
          editBOZInput w rec 2 (kind <<< 3) ∧
        editIntegerInput ⟨'O', w, dd, bz, dc, sc⟩ rec kind =
          editBOZInput w rec 8 (kind <<< 3) ∧
        editIntegerInput ⟨'Z', w, dd, bz, dc, sc⟩ rec kind =
          editBOZInput w rec 16 (kind <<< 3)) ∧
    (∀ (base : Nat) (rest : List Char) (v : Nat),
      bozLoop base (some ' ') rest v =
        match rest with
        | [] => Except.ok v
        | c :: t => bozLoop base (some c) t v) ∧
    (∀ (base v : Nat) (ch : Char) (rest : List Char), ch ≠ ' ' →
      bozDigit base ch = none →
      bozLoop base (some ch) rest v = Except.error ch) ∧
    (∀ (base v : Nat) (ch : Char) (rest : List Char) (d : Nat), ch ≠ ' ' →
      bozDigit base ch = some d →
      bozLoop base (some ch) rest v =
        match rest with
        | [] => Except.ok ((v * base + d) % 2 ^ 128)
        | c :: t => bozLoop base (some c) t ((v * base + d) % 2 ^ 128)) ∧
    bozDigit 16 'G' = some 16 ∧
    editIntegerInput ⟨'Z', some 6, none, false, false, 0⟩
      [' ', ' ', '1', 'A', '2', 'B'] 4 = EditResult.stored 6699 := by
  refine ⟨?_, ?_, ?_, ?_, by decide, rfl⟩
  · intro w dd bz dc sc rec kind hk
    refine ⟨?_, ?_, ?_⟩
    · simp only [editIntegerInput]
      rw [if_neg (not_not_intro hk), if_neg (by decide)]
      exact if_pos trivial
    · simp only [editIntegerInput]
      rw [if_neg (not_not_intro hk), if_neg (by decide), if_neg (by decide)]
      exact if_pos trivial
    · simp only [editIntegerInput]
      rw [if_neg (not_not_intro hk), if_neg (by decide), if_neg (by decide),
        if_neg (by decide)]
      exact if_pos trivial
  · intro base rest v
    cases rest <;> simp [bozLoop]
  · intro base v ch rest hch hdig
    rw [bozLoop.eq_def]
    simp [hch, hdig]
  · intro base v ch rest d hch hdig
    rw [bozLoop.eq_def]
    cases rest <;> simp [hch, hdig]

/-- Witness for claim C5 as amended, at concrete inputs: the B dispatch
at kind 4, the bad character commercial-at in a hex field, the digit
step at letter A, and the two closed evaluations. -/
theorem c5_boz_base_blank_badchar_witness :
    editIntegerInput ⟨'B', none, none, false, false, 0⟩ ['1', '0'] 4 =
      editBOZInput none ['1', '0'] 2 (4 <<< 3) ∧
    bozLoop 16 (some '@') [] 0 = Except.error '@' ∧
    bozLoop 16 (some 'A') [] 0 =
      match ([] : List Char) with
      | [] => Except.ok ((0 * 16 + 10) % 2 ^ 128)
      | c :: t => bozLoop 16 (some c) t ((0 * 16 + 10) % 2 ^ 128) := by
  refine ⟨?_, ?_, ?_⟩
  · exact (c5_boz_base_blank_badchar.1 none none false false 0 ['1', '0'] 4
      (by decide)).1
  · exact c5_boz_base_blank_badchar.2.2.1 16 0 '@' [] (by decide) (by decide)
  · exact c5_boz_base_blank_badchar.2.2.2.1 16 0 'A' [] 10 (by decide) (by decide)

/-- Access mode of an external unit. -/
inductive Access where
  | sequential
  | direct
  | stream
deriving DecidableEq

/-- The state of an ExternalFileUnit as read and written by the modelled
operations: the backing file is a byte memory together with its size
eof; the frame window is identified by its base file offset (ReadFrame
and WriteFrame set it, and Frame()[k] reads mem (frameBase + k)); the
remaining fields are the ConnectionState members used in unit.cpp
(connection.h is not among the sources, but every field here appears in
unit.cpp itself). -/
structure ExtUnit where
  mem : Mem
  eof : Int
  frameBase : Int
  offsetInFile : Int
  positionInRecord : Int
  furthestPositionInRecord : Int
  recordLength : Option Int
  currentRecordNumber : Int
  endfileRecordNumber : Option Int
  leftTabLimit : Option Int
  isReading : Bool
  isUnformatted : Bool
  access : Access
  nonAdvancing : Bool

/-- ReadFrame: the number of bytes available at the requested offset —
the lesser of the request and what the file still holds, never
negative. -/
def readAvail (eof offset need : Int) : Int := max 0 (min need (eof - offset))

/-- The endfile test pattern of unit.cpp and internal-unit.cpp:
endfileRecordNumber is set and currentRecordNumber has reached it. -/
def hitEndfile (cr : Int) (e : Option Int) : Bool :=
  match e with
  | some v => decide (cr ≥ v)
  | none => false

/-- ExternalFileUnit::Emit (unit.cpp lines 110 to 123): a write whose
high-water mark after the write would exceed a known recordLength
signals the record-write-overrun condition and returns false without
touching the frame; otherwise WriteFrame extends the frame window and
the bytes are copied at positionInRecord, advancing the position and
the high-water mark. -/
def ExtUnit.emit (u : ExtUnit) (data : List Nat) (h : HState) :
    Res (Bool × ExtUnit) :=
  let bytes : Int := data.length
  let furthestAfter := max u.furthestPositionInRecord (u.positionInRecord + bytes)
  if furthestAfter > u.recordLength.getD furthestAfter then
    match signalErrorCore h IoErrorRecordWriteOverrun none with
    | Res.crash m => Res.crash m
    | Res.ok _ h1 => Res.ok (false, u) h1
  else
    let u1 := { u with frameBase := u.offsetInFile }
    Res.ok (true,
      { u1 with
        mem := writeMem u1.mem (u1.frameBase + u1.positionInRecord) data,
        positionInRecord := u.positionInRecord + bytes,
        furthestPositionInRecord := furthestAfter }) h

/-- The state of an InternalDescriptorUnit: the current record element,
located by the descriptor subscripts, is abstracted as a byte memory
indexed from zero (descriptor.h is not among the sources; Emit and
NextChar address only the current element), together with the
connection fields used by internal-unit.cpp. -/
structure IntUnit where
  record : Mem
  positionInRecord : Int
  furthestPositionInRecord : Int
  recordLength : Option Int
  currentRecordNumber : Int
  endfileRecordNumber : Option Int
  nonAdvancing : Bool
  modesPad : Bool

/-- InternalDescriptorUnit::Emit for output statements
(internal-unit.cpp lines 55 to 87): empty writes succeed untouched;
writing at or past the last record is an internal-write-overrun; a
write whose high-water mark would exceed recordLength signals
record-write-overrun, truncates to the boundary and still copies the
clamped bytes; otherwise a position beyond the high-water mark first
blank-fills the gap, and the data is copied at positionInRecord. -/
def IntUnit.emit (u : IntUnit) (data : List Nat) (h : HState) :
    Res (Bool × IntUnit) :=
  let bytes : Int := data.length
  if bytes ≤ 0 then Res.ok (true, u) h
  else if u.currentRecordNumber ≥ u.endfileRecordNumber.getD 0 then
    match signalErrorCore h IoErrorInternalWriteOverrun none with
    | Res.crash m => Res.crash m
    | Res.ok _ h1 => Res.ok (false, u) h1
  else
    let furthestAfter := max u.furthestPositionInRecord (u.positionInRecord + bytes)
    if furthestAfter > u.recordLength.getD 0 then
      match signalErrorCore h IoErrorRecordWriteOverrun none with
      | Res.crash m => Res.crash m
      | Res.ok _ h1 =>
        let fa := u.recordLength.getD 0
        let b := max 0 (fa - u.positionInRecord)
        Res.ok (false,
          { u with
            record := writeMem u.record u.positionInRecord (data.take b.toNat),
            positionInRecord := u.positionInRecord + b,
            furthestPositionInRecord := fa }) h1
    else
      let gap := (u.positionInRecord - u.furthestPositionInRecord).toNat
      let u1 := if u.positionInRecord > u.furthestPositionInRecord then
          { u with record := fillMem u.record u.furthestPositionInRecord gap }
        else u
      Res.ok (true,
        { u1 with
          record := writeMem u1.record u1.positionInRecord data,
          positionInRecord := u.positionInRecord + bytes,
          furthestPositionInRecord := furthestAfter }) h

/-- InternalDescriptorUnit::NextChar for input statements
(internal-unit.cpp lines 89 to 115): at or past the last record signals
end-of-file; a position strictly beyond recordLength signals
end-of-record when non-advancing and yields a pad blank under PAD mode;
otherwise the byte of the current record element at positionInRecord is
returned — also when the position equals recordLength. -/
def IntUnit.nextChar (fuel : Nat) (u : IntUnit) (h : HState) :
    Option (Res (Option Nat)) :=
  if hitEndfile u.currentRecordNumber u.endfileRecordNumber then
    match signalEndF fuel h with
    | none => none
    | some (Res.crash m) => some (Res.crash m)
    | some (Res.ok _ h1) => some (Res.ok none h1)
  else if u.positionInRecord > u.recordLength.getD u.positionInRecord then
    match (if u.nonAdvancing then signalEorF fuel h else some (Res.ok () h)) with
    | none => none
    | some (Res.crash m) => some (Res.crash m)
    | some (Res.ok _ h1) =>
      some (Res.ok (if u.modesPad then some 32 else none) h1)
  else some (Res.ok (some (u.record u.positionInRecord)) h)

/-- The body of ExternalFileUnit::NextSequentialUnformattedInputRecord
after the record-advance prologue (unit.cpp lines 218 to 253): read the
retained prior footer plus the new header, decode it, read the payload
and the trailing footer, validate header against footer, and position
past the header. The unit passed in already has currentRecordNumber and
offsetInFile advanced; retain is 4 for a non-first record and 0
otherwise. -/
def unfBody (fuel : Nat) (u : ExtUnit) (h : HState) (retain : Int) :
    Option (Res ExtUnit) :=
  let base := u.offsetInFile - retain
  let u2 := { u with frameBase := base }
  let need1 := retain + 4
  let got1 := readAvail u2.eof base need1
  if got1 < need1 then
    if got1 = retain then
      match signalEndF fuel h with
      | none => none
      | some (Res.crash m) => some (Res.crash m)
      | some (Res.ok _ h1) => some (Res.ok { u2 with positionInRecord := 4 } h1)
    else
      match signalErrorCore h IoErrorGeneric
          (some (IoMsg.unfTruncatedHeader u2.currentRecordNumber u2.offsetInFile)) with
      | Res.crash m => some (Res.crash m)
      | Res.ok _ h1 => some (Res.ok { u2 with positionInRecord := 4 } h1)
  else
    let header := toI32 (decode4 u2.mem (base + retain))
    let need2 := retain + header + 8
    let got2 := readAvail u2.eof base (need2 + 4)
    if got2 < need2 then
      match signalErrorCore h IoErrorGeneric
          (some (IoMsg.unfHitEof u2.currentRecordNumber u2.offsetInFile header)) with
      | Res.crash m => some (Res.crash m)
      | Res.ok _ h1 => some (Res.ok { u2 with positionInRecord := 4 } h1)
    else
      let footer := toI32 (decode4 u2.mem (base + retain + 4 + header))
      if footer ≠ header then
        match signalErrorCore h IoErrorGeneric
            (some (IoMsg.unfFooterMismatch u2.currentRecordNumber u2.offsetInFile
              header footer)) with
        | Res.crash m => some (Res.crash m)
        | Res.ok _ h1 => some (Res.ok { u2 with positionInRecord := 4 } h1)
      else
        some (Res.ok { u2 with recordLength := some header, positionInRecord := 4 } h)

/-- ExternalFileUnit::NextSequentialUnformattedInputRecord (unit.cpp
lines 202 to 254): for a non-first record advance the record counter —
signaling end-of-file past endfileRecordNumber — and the file offset by
the previous record plus both length words, then read and validate the
next header/footer pair in unfBody. -/
def ExtUnit.nextSeqUnfInput (fuel : Nat) (u : ExtUnit) (h : HState) :
    Option (Res ExtUnit) :=
  match u.recordLength with
  | some rl =>
    let u1 := { u with currentRecordNumber := u.currentRecordNumber + 1 }
    if hitEndfile u1.currentRecordNumber u1.endfileRecordNumber then
      match signalEndF fuel h with
      | none => none
      | some (Res.crash m) => some (Res.crash m)
      | some (Res.ok _ h1) => some (Res.ok u1 h1)
    else
      unfBody fuel { u1 with offsetInFile := u1.offsetInFile + rl + 8 } h 4
  | none => unfBody fuel u h 0

/-- std::memchr for the newline byte over a fixed chunk: the first index
below the chunk size whose byte is 10. -/
def memchrNl (m : Mem) (start : Int) : Nat → Option Nat
  | 0 => none
  | n + 1 =>
    if m start % 256 = 10 then some 0
    else (memchrNl m (start + 1) n).map (· + 1)

/-- The scan loop of NextSequentialFormattedInputRecord (unit.cpp lines
272 to 288): read a growing frame, signal end-of-file when no new byte
arrives, search the newly read chunk for a newline, set recordLength
from its position (relative to the chunk start, as the code computes
it), strip a carriage return before it, and otherwise grow and retry. -/
def fmtLoop (fuel : Nat) (u : ExtUnit) (h : HState) (length : Int) :
    Option (Res ExtUnit) :=
  match fuel with
  | 0 => none
  | f + 1 =>
    let u1 := { u with frameBase := u.offsetInFile }
    let got := readAvail u1.eof u1.offsetInFile (length + 256)
    if got ≤ length then
      match signalEndF f h with
      | none => none
      | some (Res.crash m) => some (Res.crash m)
      | some (Res.ok _ h1) => some (Res.ok u1 h1)
    else
      match memchrNl u1.mem (u1.frameBase + length) 256 with
      | some k =>
        let rl1 := (k : Int) + 1
        let rl2 := if rl1 > 0 ∧ u1.mem (u1.frameBase + (rl1 - 1)) % 256 = 13 then
            rl1 - 1 else rl1
        some (Res.ok { u1 with recordLength := some rl2 } h)
      | none => fmtLoop f u1 h (length + got)

/-- ExternalFileUnit::NextSequentialFormattedInputRecord (unit.cpp lines
256 to 289): for a non-first record advance the record counter —
signaling end-of-file past endfileRecordNumber — extend the previous
record over a trailing carriage return, advance the file offset past it
and its newline, then scan for the next newline in fmtLoop. -/
def ExtUnit.nextSeqFmtInput (fuel : Nat) (u : ExtUnit) (h : HState) :
    Option (Res ExtUnit) :=
  match u.recordLength with
  | some rl =>
    let u1 := { u with currentRecordNumber := u.currentRecordNumber + 1 }
    if hitEndfile u1.currentRecordNumber u1.endfileRecordNumber then
      match signalEndF fuel h with
      | none => none
      | some (Res.crash m) => some (Res.crash m)
      | some (Res.ok _ h1) => some (Res.ok u1 h1)
    else
      let rl2 := if u1.mem (u1.frameBase + rl) % 256 = 13 then rl + 1 else rl
      fmtLoop fuel
        { u1 with
          recordLength := some rl2,
          offsetInFile := u1.offsetInFile + rl2 + 1 } h 0
  | none => fmtLoop fuel u h 0

/-- The unconditional tail of ExternalFileUnit::AdvanceRecord (unit.cpp
lines 183 to 186): bump the record counter and reset positionInRecord,
furthestPositionInRecord and leftTabLimit. -/
def advTail (b : Bool) (u : ExtUnit) : Bool × ExtUnit :=
  (b,
    { u with
      currentRecordNumber := u.currentRecordNumber + 1,
      positionInRecord := 0, furthestPositionInRecord := 0, leftTabLimit := none })

/-- The direction- and mode-dependent first phase of
ExternalFileUnit::AdvanceRecord (unit.cpp lines 160 to 182): reading
sequential resolves the next record (unformatted or formatted); writing
a formatted fixed-length record blank-fills from the high-water mark up
to recordLength; writing a variable-length formatted record emits the
newline terminator and advances the file offset. -/
def advStep (fuel : Nat) (u : ExtUnit) (h : HState) :
    Option (Res (Bool × ExtUnit)) :=
  if u.isReading then
      if u.access = Access.sequential then
        match (if u.isUnformatted then u.nextSeqUnfInput fuel h
               else u.nextSeqFmtInput fuel h) with
        | none => none
        | some (Res.crash m) => some (Res.crash m)
        | some (Res.ok u1 h1) => some (Res.ok (true, u1) h1)
      else some (Res.ok (true, u) h)
    else if u.isUnformatted = false then
      match u.recordLength with
      | some rl =>
        if u.furthestPositionInRecord < rl then
          let u1 := { u with frameBase := u.offsetInFile }
          let fill := (rl - u1.furthestPositionInRecord).toNat
          let m2 := fillMem u1.mem (u1.frameBase + u1.furthestPositionInRecord) fill
          some (Res.ok (true, { u1 with mem := m2 }) h)
        else some (Res.ok (true, u) h)
      | none =>
        let u1 := { u with positionInRecord := u.furthestPositionInRecord + 1 }
        match u1.emit [10] h with
        | Res.crash m => some (Res.crash m)
        | Res.ok (b, u2) h1 =>
          let o2 := u2.offsetInFile + u2.furthestPositionInRecord
          some (Res.ok (b, { u2 with offsetInFile := o2 }) h1)
  else some (Res.ok (true, u) h)

/-- ExternalFileUnit::AdvanceRecord (unit.cpp lines 159 to 188): the
direction-dependent first phase, then the unconditional tail. -/
def ExtUnit.advanceRecord (fuel : Nat) (u : ExtUnit) (h : HState) :
    Option (Res (Bool × ExtUnit)) :=
  match advStep fuel u h with
  | none => none
  | some (Res.crash m) => some (Res.crash m)
  | some (Res.ok (b, u1) h1) => some (Res.ok (advTail b u1) h1)

theorem writeMem_out (data : List Nat) : ∀ (m : Mem) (pos i : Int),
    (i < pos ∨ pos + (data.length : Int) ≤ i) → writeMem m pos data i = m i := by
  induction data with
  | nil =>
    intro m pos i _
    rfl
  | cons b t ih =>
    intro m pos i hi
    simp only [List.length_cons] at hi
    have hi1 : ((t.length + 1 : Nat) : Int) = (t.length : Int) + 1 := by push_cast; ring
    rw [hi1] at hi
    show writeMem (updMem m pos b) (pos + 1) t i = m i
    rw [ih (updMem m pos b) (pos + 1) i (by omega)]
    unfold updMem
    rw [if_neg (by omega)]

theorem writeMem_shift (data : List Nat) : ∀ (m1 m2 : Mem) (o pos : Int),
    (∀ j, m1 (o + j) = m2 j) →
    ∀ i, writeMem m1 (o + pos) data (o + i) = writeMem m2 pos data i := by
  induction data with
  | nil =>
    intro m1 m2 o pos hagree i
    exact hagree i
  | cons b t ih =>
    intro m1 m2 o pos hagree i
    show writeMem (updMem m1 (o + pos) b) (o + pos + 1) t (o + i) =
      writeMem (updMem m2 pos b) (pos + 1) t i
    have ho : o + pos + 1 = o + (pos + 1) := by ring
    rw [ho]
    refine ih _ _ o (pos + 1) ?_ i
    intro j
    unfold updMem
    by_cases hj : j = pos
    · rw [if_pos (by omega), if_pos hj]
    · rw [if_neg (by omega), if_neg hj]
      exact hagree j

theorem signalErrorCore_records (h : HState) (code : Int) (hc : code ≠ 0)
    (hIo : h.hasIoStat = true) (hSt : h.ioStat = 0) :
    signalErrorCore h code none = Res.ok () { h with ioStat := code } := by
  unfold signalErrorCore
  rw [if_pos hc, if_pos (Or.inl hIo), if_pos (by omega)]
  rfl

/-- Claim C6: for Emit on a unit with a known fixed recordLength, a
write whose end position would exceed the record length signals the
record-write-overrun condition and returns failure, and no byte at or
beyond the declared record boundary is modified: the external unit
returns with its entire state untouched, and the internal unit modifies
no record byte at offset recordLength or beyond. -/
theorem c6_emit_fixed_overrun :
    (∀ (u : ExtUnit) (h : HState) (L : Int) (data : List Nat),
      u.recordLength = some L →
      h.hasIoStat = true → h.ioStat = 0 →
      u.positionInRecord + (data.length : Int) > L →
      u.emit data h =
        Res.ok (false, u) { h with ioStat := IoErrorRecordWriteOverrun }) ∧
    (∀ (u : IntUnit) (h : HState) (L : Int) (data : List Nat),
      u.recordLength = some L →
      h.hasIoStat = true → h.ioStat = 0 →
      u.positionInRecord + (data.length : Int) > L →
      data ≠ [] →
      u.currentRecordNumber < u.endfileRecordNumber.getD 0 →
      match u.emit data h with
      | Res.ok (b, u1) h1 =>
        b = false ∧ h1 = { h with ioStat := IoErrorRecordWriteOverrun } ∧
        ∀ i : Int, L ≤ i → u1.record i = u.record i
      | Res.crash m => False) := by
  constructor
  · intro u h L data hL hIo hSt hov
    unfold ExtUnit.emit
    rw [hL]
    have hmax := le_max_right u.furthestPositionInRecord
      (u.positionInRecord + (data.length : Int))
    rw [if_pos (by simp only [Option.getD]; omega)]
    rw [signalErrorCore_records h IoErrorRecordWriteOverrun (by decide) hIo hSt]
  · intro u h L data hL hIo hSt hov hne hcr
    unfold IntUnit.emit
    have hlen : 0 < data.length := List.length_pos.mpr hne
    rw [if_neg (by exact_mod_cast Nat.not_le.mpr (by omega)), if_neg (by omega)]
    rw [hL]
    have hmax := le_max_right u.furthestPositionInRecord
      (u.positionInRecord + (data.length : Int))
    rw [if_pos (by simp only [Option.getD]; omega)]
    rw [signalErrorCore_records h IoErrorRecordWriteOverrun (by decide) hIo hSt]
    refine ⟨rfl, rfl, ?_⟩
    simp only [hL, Option.getD_some]
    intro i hi
    apply writeMem_out
    have hb0 : (0 : Int) ≤ max 0 (L - u.positionInRecord) := le_max_left 0 _
    have htl : ((data.take (max 0 (L - u.positionInRecord)).toNat).length : Int) ≤
        max 0 (L - u.positionInRecord) := by
      have h1 : (data.take (max 0 (L - u.positionInRecord)).toNat).length ≤
          (max 0 (L - u.positionInRecord)).toNat := by
        rw [List.length_take]
        exact Nat.min_le_left _ _
      calc ((data.take (max 0 (L - u.positionInRecord)).toNat).length : Int)
          ≤ ((max 0 (L - u.positionInRecord)).toNat : Int) := by exact_mod_cast h1
        _ = max 0 (L - u.positionInRecord) := Int.toNat_of_nonneg hb0
    rcases le_total (L - u.positionInRecord) 0 with hc | hc
    · rw [max_eq_left hc] at htl hb0 ⊢
      omega
    · rw [max_eq_right hc] at htl hb0 ⊢
      omega

/-- Concrete handler for the claim C6 and C7 witnesses: IOSTAT=
requested, nothing recorded yet. -/
def hW : HState :=
  { hasIoStat := true, hasErr := false, hasEnd := false, hasEor := false,
    hasIoMsg := false, ioStat := 0, ioMsg := none }

/-- Concrete external unit: fixed record of four bytes, start of record,
frame bytes all 88. -/
def c6ext : ExtUnit :=
  { mem := fun _ => 88, eof := 100, frameBase := 0, offsetInFile := 0,
    positionInRecord := 0, furthestPositionInRecord := 0, recordLength := some 4,
    currentRecordNumber := 1, endfileRecordNumber := none, leftTabLimit := none,
    isReading := false, isUnformatted := false, access := Access.sequential,
    nonAdvancing := false }

/-- Concrete internal unit: fixed record of four bytes, start of record,
record bytes all 88. -/
def c6int : IntUnit :=
  { record := fun _ => 88, positionInRecord := 0, furthestPositionInRecord := 0,
    recordLength := some 4, currentRecordNumber := 1, endfileRecordNumber := some 2,
    nonAdvancing := false, modesPad := false }

/-- Witness for claim C6 at concrete inputs: a five-byte write into a
four-byte record on both kinds of unit. -/
theorem c6_emit_fixed_overrun_witness :
    c6ext.emit [65, 66, 67, 68, 69] hW =
      Res.ok (false, c6ext) { hW with ioStat := IoErrorRecordWriteOverrun } ∧
    (match c6int.emit [65, 66, 67, 68, 69] hW with
     | Res.ok (b, u1) h1 =>
       b = false ∧ h1 = { hW with ioStat := IoErrorRecordWriteOverrun } ∧
       ∀ i : Int, (4 : Int) ≤ i → u1.record i = c6int.record i
     | Res.crash m => False) := by
  constructor
  · exact c6_emit_fixed_overrun.1 c6ext hW 4 [65, 66, 67, 68, 69] rfl rfl rfl
      (by decide)
  · exact c6_emit_fixed_overrun.2 c6int hW 4 [65, 66, 67, 68, 69] rfl rfl rfl
      (by decide) (by decide) (by decide)

/-- Position of the unit after an external emit, for stating concrete
outcomes (a sentinel for non-ok outcomes). -/
def extPosOf (r : Res (Bool × ExtUnit)) : Int :=
  match r with
  | Res.ok (_, u) _ => u.positionInRecord
  | Res.crash _ => -99

/-- Position of the unit after an internal emit. -/
def intPosOf (r : Res (Bool × IntUnit)) : Int :=
  match r with
  | Res.ok (_, u) _ => u.positionInRecord
  | Res.crash _ => -99

/-- A frame byte after an external emit. -/
def extMemAt (r : Res (Bool × ExtUnit)) (i : Int) : Nat :=
  match r with
  | Res.ok (_, u) _ => u.mem i
  | Res.crash _ => 0

/-- A record byte after an internal emit. -/
def intRecAt (r : Res (Bool × IntUnit)) (i : Int) : Nat :=
  match r with
  | Res.ok (_, u) _ => u.record i
  | Res.crash _ => 0

/-- The external c6ext with the position moved past the high-water mark,
for the gap case. -/
def c7ext2 : ExtUnit := { c6ext with positionInRecord := 2, recordLength := some 8 }

/-- The internal c6int with the position moved past the high-water mark,
for the gap case. -/
def c7int2 : IntUnit := { c6int with positionInRecord := 2, recordLength := some 8 }

/-- Counterexample to claim C7 as stated: the two Emit implementations
do not behave identically in the overrun case — on a six-byte write
into a four-byte record, started from equal positions, the external
unit fails leaving positionInRecord at 0 and the frame untouched, while
the internal unit fails having advanced positionInRecord to 4 and
written the truncated prefix — nor in the case where positionInRecord
lies beyond furthestPositionInRecord: writing one byte at position 2 of
an eight-byte record, the external unit leaves the gap byte at offset 0
holding 88, while the internal unit blank-fills it to 32. -/
theorem c7_emit_equivalence_counterexample :
    extPosOf (c6ext.emit [65, 66, 67, 68, 69, 70] hW) = 0 ∧
    intPosOf (c6int.emit [65, 66, 67, 68, 69, 70] hW) = 4 ∧ (0 : Int) ≠ 4 ∧
    extMemAt (c7ext2.emit [65] hW) 0 = 88 ∧
    intRecAt (c7int2.emit [65] hW) 0 = 32 ∧ (88 : Nat) ≠ 32 :=
  ⟨rfl, rfl, by decide, rfl, rfl, by decide⟩

/-- Claim C7 as amended: started from equal positionInRecord p and equal
furthestPositionInRecord f with p at most f (no gap), and an equal known
recordLength L with f at most L, a nonempty Emit on an internal unit
still within its records gives the same success/failure answer as the
external unit; when the write fits, the resulting positions coincide
and the same bytes land at the same record offsets (frame offsets
relative to offsetInFile versus element offsets); in the overrun case
both fail, but the two units differ: the external unit returns with all
its state untouched, while the internal unit writes the truncated
prefix and advances both positions to the record boundary. -/
theorem c7_emit_fixed_equivalence_amended :
    ∀ (ue : ExtUnit) (ui : IntUnit) (h : HState) (L p f : Int) (data : List Nat),
      ue.recordLength = some L → ui.recordLength = some L →
      ue.positionInRecord = p → ui.positionInRecord = p →
      ue.furthestPositionInRecord = f → ui.furthestPositionInRecord = f →
      p ≤ f → f ≤ L → data ≠ [] →
      ui.currentRecordNumber < ui.endfileRecordNumber.getD 0 →
      h.hasIoStat = true → h.ioStat = 0 →
      ((max f (p + (data.length : Int)) ≤ L →
        ue.emit data h = Res.ok (true,
          { ue with
            frameBase := ue.offsetInFile,
            mem := writeMem ue.mem (ue.offsetInFile + p) data,
            positionInRecord := p + (data.length : Int),
            furthestPositionInRecord := max f (p + (data.length : Int)) }) h ∧
        ui.emit data h = Res.ok (true,
          { ui with
            record := writeMem ui.record p data,
            positionInRecord := p + (data.length : Int),
            furthestPositionInRecord := max f (p + (data.length : Int)) }) h ∧
        ((∀ j : Int, ue.mem (ue.offsetInFile + j) = ui.record j) →
          ∀ j : Int,
            writeMem ue.mem (ue.offsetInFile + p) data (ue.offsetInFile + j) =
              writeMem ui.record p data j)) ∧
       (max f (p + (data.length : Int)) > L →
        ue.emit data h =
          Res.ok (false, ue) { h with ioStat := IoErrorRecordWriteOverrun } ∧
        match ui.emit data h with
        | Res.ok (b, u1) h1 =>
          b = false ∧ u1.positionInRecord = L ∧
            u1.furthestPositionInRecord = L ∧
            h1 = { h with ioStat := IoErrorRecordWriteOverrun }
        | Res.crash m => False)) := by
  intro ue ui h L p f data hueL huiL huep huip huef huif hpf hfL hne hcr hIo hSt
  have hlen : 0 < data.length := List.length_pos.mpr hne
  constructor
  · intro hfit
    refine ⟨?_, ?_, ?_⟩
    · unfold ExtUnit.emit
      rw [hueL, huep, huef]
      rw [if_neg (by rw [Option.getD_some]; exact not_lt.mpr hfit)]
    · unfold IntUnit.emit
      rw [huiL, huip, huif]
      rw [if_neg (by omega), if_neg (by omega)]
      rw [if_neg (by rw [Option.getD_some]; exact not_lt.mpr hfit)]
      simp only []
      rw [if_neg (not_lt.mpr hpf), huip, huiL]
    · intro hagree j
      exact writeMem_shift data ue.mem ui.record ue.offsetInFile p hagree j
  · intro hov
    constructor
    · unfold ExtUnit.emit
      rw [hueL, huep, huef]
      rw [if_pos (by rw [Option.getD_some]; exact hov)]
      rw [signalErrorCore_records h IoErrorRecordWriteOverrun (by decide) hIo hSt]
    · unfold IntUnit.emit
      rw [huiL, huip, huif]
      rw [if_neg (by omega), if_neg (by omega)]
      rw [if_pos (by rw [Option.getD_some]; exact hov)]
      rw [signalErrorCore_records h IoErrorRecordWriteOverrun (by decide) hIo hSt]
      refine ⟨rfl, ?_, ?_, rfl⟩
      · show p + max 0 ((some L).getD 0 - p) = L
        rw [Option.getD_some, max_eq_right (by omega)]
        ring
      · show ((some L).getD 0 : Int) = L
        exact Option.getD_some

/-- Witness for claim C7 as amended, at concrete inputs: a fitting
two-byte write on the concrete pair of units, and the overrun case with
six bytes. -/
theorem c7_emit_fixed_equivalence_amended_witness :
    (c6ext.emit [65, 66] hW = Res.ok (true,
      { c6ext with
        frameBase := c6ext.offsetInFile,
        mem := writeMem c6ext.mem (c6ext.offsetInFile + 0) [65, 66],
        positionInRecord := 0 + ((2 : Nat) : Int),
        furthestPositionInRecord := max 0 (0 + ((2 : Nat) : Int)) }) hW ∧
     c6int.emit [65, 66] hW = Res.ok (true,
      { c6int with
        record := writeMem c6int.record 0 [65, 66],
        positionInRecord := 0 + ((2 : Nat) : Int),
        furthestPositionInRecord := max 0 (0 + ((2 : Nat) : Int)) }) hW ∧
     ((∀ j : Int, c6ext.mem (c6ext.offsetInFile + j) = c6int.record j) →
       ∀ j : Int,
         writeMem c6ext.mem (c6ext.offsetInFile + 0) [65, 66] (c6ext.offsetInFile + j) =
           writeMem c6int.record 0 [65, 66] j)) ∧
    (c6ext.emit [65, 66, 67, 68, 69, 70] hW =
      Res.ok (false, c6ext) { hW with ioStat := IoErrorRecordWriteOverrun } ∧
     match c6int.emit [65, 66, 67, 68, 69, 70] hW with
     | Res.ok (b, u1) h1 =>
       b = false ∧ u1.positionInRecord = 4 ∧ u1.furthestPositionInRecord = 4 ∧
         h1 = { hW with ioStat := IoErrorRecordWriteOverrun }
     | Res.crash m => False) := by
  constructor
  · exact (c7_emit_fixed_equivalence_amended c6ext c6int hW 4 0 0 [65, 66]
      rfl rfl rfl rfl rfl rfl (by decide) (by decide) (by decide) (by decide)
      rfl rfl).1 (by decide)
  · exact (c7_emit_fixed_equivalence_amended c6ext c6int hW 4 0 0
      [65, 66, 67, 68, 69, 70]
      rfl rfl rfl rfl rfl rfl (by decide) (by decide) (by decide) (by decide)
      rfl rfl).2 (by decide)

theorem signalErrorCore_records_msg (h : HState) (code : Int) (msg : IoMsg)
    (hc : code ≠ 0) (hIo : h.hasIoStat = true) (hMsg : h.hasIoMsg = true)
    (hSt : h.ioStat = 0) :
    signalErrorCore h code (some msg) =
      Res.ok () { h with ioStat := code, ioMsg := some msg } := by
  unfold signalErrorCore
  rw [if_pos hc, if_pos (Or.inl hIo), if_pos (by omega)]
  simp [hMsg]

theorem unfBody4 (fuel : Nat) (u : ExtUnit) (h : HState) (header footer : Int)
    (hH : header = toI32 (decode4 u.mem u.offsetInFile))
    (hF : footer = toI32 (decode4 u.mem (u.offsetInFile + 4 + header)))
    (hHpos : 0 ≤ header) (heof : u.offsetInFile + 8 + header ≤ u.eof)
    (hIo : h.hasIoStat = true) (hMsg : h.hasIoMsg = true) (hSt : h.ioStat = 0) :
    (footer ≠ header → unfBody fuel u h 4 = some (Res.ok
      { u with frameBase := u.offsetInFile - 4, positionInRecord := 4 }
      { h with
        ioStat := IoErrorGeneric,
        ioMsg := some (IoMsg.unfFooterMismatch u.currentRecordNumber u.offsetInFile
          header footer) })) ∧
    (footer = header → unfBody fuel u h 4 = some (Res.ok
      { u with
        frameBase := u.offsetInFile - 4, recordLength := some header,
        positionInRecord := 4 } h)) := by
  have hg1 : readAvail u.eof (u.offsetInFile - 4) (4 + 4) = 4 + 4 := by
    unfold readAvail
    rw [min_eq_left (by omega), max_eq_right (by omega)]
  have he1 : u.offsetInFile - 4 + 4 = u.offsetInFile := by ring
  constructor
  · intro hne
    unfold unfBody
    simp only []
    rw [hg1, if_neg (lt_irrefl (4 + 4)), he1, ← hH]
    have hg2 : ¬ (readAvail u.eof (u.offsetInFile - 4) (4 + header + 8 + 4) <
        4 + header + 8) := by
      unfold readAvail
      have h1 : (4 + header + 8 : Int) ≤
          min (4 + header + 8 + 4) (u.eof - (u.offsetInFile - 4)) :=
        le_min (by omega) (by omega)
      have h2 := le_max_right (0 : Int)
        (min (4 + header + 8 + 4) (u.eof - (u.offsetInFile - 4)))
      omega
    rw [if_neg hg2]
    rw [← hF, if_pos hne]
    rw [signalErrorCore_records_msg h IoErrorGeneric _ (by decide) hIo hMsg hSt]
  · intro heq
    unfold unfBody
    simp only []
    rw [hg1, if_neg (lt_irrefl (4 + 4)), he1, ← hH]
    have hg2 : ¬ (readAvail u.eof (u.offsetInFile - 4) (4 + header + 8 + 4) <
        4 + header + 8) := by
      unfold readAvail
      have h1 : (4 + header + 8 : Int) ≤
          min (4 + header + 8 + 4) (u.eof - (u.offsetInFile - 4)) :=
        le_min (by omega) (by omega)
      have h2 := le_max_right (0 : Int)
        (min (4 + header + 8 + 4) (u.eof - (u.offsetInFile - 4)))
      omega
    rw [if_neg hg2]
    rw [← hF, if_neg (not_not_intro heq)]

/-- Claim C9: reading an unformatted sequential record stored as a
little-endian 32-bit length header, the payload, and a trailing length
copy, with the whole next record present in the file and the statement
not at its endfile record, NextSequentialUnformattedInputRecord signals
the corrupt-file error — whose message carries the record number and
the file offset — exactly when the decoded footer differs from the
header; when they match, recordLength is set to the header value and
the handler is untouched. -/
theorem c9_unformatted_footer_validation :
    ∀ (fuel : Nat) (u : ExtUnit) (h : HState) (rl header footer : Int),
      u.recordLength = some rl →
      (∀ e, u.endfileRecordNumber = some e → u.currentRecordNumber + 1 < e) →
      h.hasIoStat = true → h.hasIoMsg = true → h.ioStat = 0 →
      header = toI32 (decode4 u.mem (u.offsetInFile + rl + 8)) →
      footer = toI32 (decode4 u.mem (u.offsetInFile + rl + 8 + 4 + header)) →
      0 ≤ header →
      u.offsetInFile + rl + 8 + 8 + header ≤ u.eof →
      ((footer ≠ header →
        u.nextSeqUnfInput fuel h = some (Res.ok
          { u with
            currentRecordNumber := u.currentRecordNumber + 1,
            offsetInFile := u.offsetInFile + rl + 8,
            frameBase := u.offsetInFile + rl + 8 - 4,
            positionInRecord := 4 }
          { h with
            ioStat := IoErrorGeneric,
            ioMsg := some (IoMsg.unfFooterMismatch (u.currentRecordNumber + 1)
              (u.offsetInFile + rl + 8) header footer) })) ∧
       (footer = header →
        u.nextSeqUnfInput fuel h = some (Res.ok
          { u with
            currentRecordNumber := u.currentRecordNumber + 1,
            offsetInFile := u.offsetInFile + rl + 8,
            frameBase := u.offsetInFile + rl + 8 - 4,
            recordLength := some header,
            positionInRecord := 4 } h))) := by
  intro fuel u h rl header footer hrl hend hIo hMsg hSt hH hF hHpos heof
  unfold ExtUnit.nextSeqUnfInput
  rw [hrl]
  simp only []
  have hhe : hitEndfile (u.currentRecordNumber + 1) u.endfileRecordNumber = false := by
    unfold hitEndfile
    cases he : u.endfileRecordNumber with
    | none => rfl
    | some e =>
      simp only [decide_eq_false_iff_not]
      have := hend e he
      omega
  simp only [hhe, Bool.false_eq_true, if_false]
  exact unfBody4 fuel
    { u with
      recordLength := some rl,
      currentRecordNumber := u.currentRecordNumber + 1,
      offsetInFile := u.offsetInFile + rl + 8 } h header footer hH hF hHpos heof
    hIo hMsg hSt

/-- Claim C10: for an internal input unit with known recordLength and
not yet at its endfile record, NextChar signals end-of-record or
returns a pad blank only when positionInRecord strictly exceeds
recordLength; for every position at most recordLength — including the
position exactly equal to it, one past the last character of the
record — it returns the record-element byte at that offset, with the
handler untouched. -/
theorem c10_internal_nextchar_boundary :
    ∀ (fuel : Nat) (u : IntUnit) (h : HState) (L : Int),
      u.recordLength = some L →
      (∀ e, u.endfileRecordNumber = some e → u.currentRecordNumber < e) →
      u.positionInRecord ≤ L →
      u.nextChar fuel h = some (Res.ok (some (u.record u.positionInRecord)) h) ∧
      (u.positionInRecord = L →
        u.nextChar fuel h = some (Res.ok (some (u.record L)) h)) := by
  intro fuel u h L hL hend hpos
  have hhe : hitEndfile u.currentRecordNumber u.endfileRecordNumber = false := by
    unfold hitEndfile
    cases he : u.endfileRecordNumber with
    | none => rfl
    | some e =>
      simp only [decide_eq_false_iff_not]
      have := hend e he
      omega
  have hmain : u.nextChar fuel h =
      some (Res.ok (some (u.record u.positionInRecord)) h) := by
    unfold IntUnit.nextChar
    rw [hhe]
    simp only [Bool.false_eq_true, if_false]
    rw [hL]
    rw [if_neg (by rw [Option.getD_some]; omega)]
  refine ⟨hmain, fun hp => ?_⟩
  rw [hmain, hp]

/-- Concrete two-record unformatted file for the claim C9 witness:
record one is 4 bytes 1 2 3 4 with matching length words 4; record two
claims length 10 with payload of ten 9s, but its footer says 11. -/
def tfile : List Nat :=
  [4, 0, 0, 0, 1, 2, 3, 4, 4, 0, 0, 0,
   10, 0, 0, 0, 9, 9, 9, 9, 9, 9, 9, 9, 9, 9, 11, 0, 0, 0]

/-- Concrete external unformatted unit positioned after reading record
one of tfile. -/
def c9u : ExtUnit :=
  { mem := memOfList tfile, eof := 30, frameBase := 0, offsetInFile := 0,
    positionInRecord := 4, furthestPositionInRecord := 0, recordLength := some 4,
    currentRecordNumber := 1, endfileRecordNumber := none, leftTabLimit := none,
    isReading := true, isUnformatted := true, access := Access.sequential,
    nonAdvancing := false }

/-- Concrete handler with IOSTAT= and IOMSG= requested, nothing
recorded yet. -/
def c9h : HState :=
  { hasIoStat := true, hasErr := false, hasEnd := false, hasEor := false,
    hasIoMsg := true, ioStat := 0, ioMsg := none }

/-- Witness for claim C9 at a concrete input: the corrupted footer of
record two (11 against header 10) produces the corrupt-file condition
citing record number 2 and file offset 12. -/
theorem c9_unformatted_footer_validation_witness :
    c9u.nextSeqUnfInput 0 c9h = some (Res.ok
      { c9u with
        currentRecordNumber := 2,
        offsetInFile := 12,
        frameBase := 8,
        positionInRecord := 4 }
      { c9h with
        ioStat := IoErrorGeneric,
        ioMsg := some (IoMsg.unfFooterMismatch 2 12 10 11) }) := by
  exact (c9_unformatted_footer_validation 0 c9u c9h 4 10 11 rfl
    (by intro e he; simp [c9u] at he) rfl rfl rfl (by decide) (by decide)
    (by decide) (by decide)).1 (by decide)

/-- Concrete internal unit for the claim C10 witness: a four-byte
record of letters A, with the position already equal to the record
length. -/
def c10u : IntUnit :=
  { record := fun _ => 65, positionInRecord := 4, furthestPositionInRecord := 4,
    recordLength := some 4, currentRecordNumber := 1, endfileRecordNumber := some 2,
    nonAdvancing := false, modesPad := false }

/-- Witness for claim C10 at a concrete input: with positionInRecord
equal to recordLength 4, NextChar still returns the byte there instead
of signaling end-of-record. -/
theorem c10_internal_nextchar_boundary_witness :
    c10u.nextChar 0 c9h = some (Res.ok (some 65) c9h) := by
  exact (c10_internal_nextchar_boundary 0 c10u c9h 4 rfl
    (by intro e he; simp [c10u] at he ⊢; omega) (by decide)).2 rfl

theorem extEmit_cr (u : ExtUnit) (data : List Nat) (h : HState) (b : Bool)
    (v : ExtUnit) (h1 : HState)
    (he : u.emit data h = Res.ok (b, v) h1) :
    v.currentRecordNumber = u.currentRecordNumber := by
  unfold ExtUnit.emit at he
  simp only [] at he
  split at he
  · split at he
    · simp at he
    · simp only [Res.ok.injEq, Prod.mk.injEq] at he
      rw [← he.1.2]
  · simp only [Res.ok.injEq, Prod.mk.injEq] at he
    rw [← he.1.2]

theorem unfBody_cr (fuel : Nat) (u : ExtUnit) (h : HState) (r : Int)
    (v : ExtUnit) (h1 : HState)
    (he : unfBody fuel u h r = some (Res.ok v h1)) :
    v.currentRecordNumber = u.currentRecordNumber := by
  unfold unfBody at he
  simp only [] at he
  repeat' split at he
  all_goals simp only [Option.some.injEq, Res.ok.injEq, reduceCtorEq] at he
  all_goals rw [← he.1]

theorem fmtLoop_cr : ∀ (fuel : Nat) (u : ExtUnit) (h : HState) (len : Int)
    (v : ExtUnit) (h1 : HState),
    fmtLoop fuel u h len = some (Res.ok v h1) →
    v.currentRecordNumber = u.currentRecordNumber := by
  intro fuel
  induction fuel with
  | zero =>
    intro u h len v h1 he
    simp [fmtLoop] at he
  | succ f ih =>
    intro u h len v h1 he
    rw [fmtLoop] at he
    simp only [] at he
    split at he
    · split at he
      all_goals simp only [Option.some.injEq, Res.ok.injEq, reduceCtorEq] at he
      rw [← he.1]
    · split at he
      · simp only [Option.some.injEq, Res.ok.injEq] at he
        rw [← he.1]
      · have hrec := ih _ _ _ _ _ he
        exact hrec

theorem nextSeqUnf_cr (fuel : Nat) (u : ExtUnit) (h : HState)
    (v : ExtUnit) (h1 : HState)
    (he : u.nextSeqUnfInput fuel h = some (Res.ok v h1)) :
    v.currentRecordNumber = u.currentRecordNumber +
      (if u.recordLength.isSome = true then 1 else 0) := by
  unfold ExtUnit.nextSeqUnfInput at he
  cases hrl : u.recordLength with
  | none =>
    rw [hrl] at he
    simp only [hrl, Option.isSome_none, Bool.false_eq_true, if_false, add_zero]
    exact unfBody_cr fuel u h 0 v h1 he
  | some rl =>
    rw [hrl] at he
    simp only [hrl, Option.isSome_some, if_pos]
    simp only [] at he
    split at he
    · split at he
      all_goals simp only [Option.some.injEq, Res.ok.injEq, reduceCtorEq] at he
      rw [← he.1]
    · exact unfBody_cr fuel _ h 4 v h1 he

theorem nextSeqFmt_cr (fuel : Nat) (u : ExtUnit) (h : HState)
    (v : ExtUnit) (h1 : HState)
    (he : u.nextSeqFmtInput fuel h = some (Res.ok v h1)) :
    v.currentRecordNumber = u.currentRecordNumber +
      (if u.recordLength.isSome = true then 1 else 0) := by
  unfold ExtUnit.nextSeqFmtInput at he
  cases hrl : u.recordLength with
  | none =>
    rw [hrl] at he
    simp only [hrl, Option.isSome_none, Bool.false_eq_true, if_false, add_zero]
    exact fmtLoop_cr fuel u h 0 v h1 he
  | some rl =>
    rw [hrl] at he
    simp only [hrl, Option.isSome_some, if_pos]
    simp only [] at he
    split at he
    · split at he
      all_goals simp only [Option.some.injEq, Res.ok.injEq, reduceCtorEq] at he
      rw [← he.1]
    · exact fmtLoop_cr fuel _ h 0 v h1 he

theorem advStep_cr (fuel : Nat) (u : ExtUnit) (h : HState) (b : Bool)
    (v : ExtUnit) (h1 : HState)
    (he : advStep fuel u h = some (Res.ok (b, v) h1)) :
    v.currentRecordNumber = u.currentRecordNumber +
      (if u.isReading = true ∧ u.access = Access.sequential ∧
          u.recordLength.isSome = true then 1 else 0) := by
  unfold advStep at he
  split at he
  case isTrue hr =>
    split at he
    case isTrue ha =>
      split at he
      case h_1 m heq => simp at he
      case h_2 m heq => simp at he
      case h_3 u1 hx heq =>
        simp only [Option.some.injEq, Res.ok.injEq, Prod.mk.injEq] at he
        rw [← he.1.2]
        simp only [hr, ha, true_and]
        split at heq
        · exact nextSeqUnf_cr fuel u h u1 hx heq
        · exact nextSeqFmt_cr fuel u h u1 hx heq
    case isFalse ha =>
      simp only [Option.some.injEq, Res.ok.injEq, Prod.mk.injEq] at he
      rw [← he.1.2]
      simp [ha]
  case isFalse hr =>
    have hcond : ¬ (u.isReading = true ∧ u.access = Access.sequential ∧
        u.recordLength.isSome = true) := fun hc => hr hc.1
    rw [if_neg hcond, add_zero]
    split at he
    · simp only [] at he
      split at he
      · split at he
        · simp only [Option.some.injEq, Res.ok.injEq, Prod.mk.injEq] at he
          rw [← he.1.2]
        · simp only [Option.some.injEq, Res.ok.injEq, Prod.mk.injEq] at he
          rw [← he.1.2]
      · split at he
        case h_1 m heq => simp at he
        case h_2 b0 u2 hx heq =>
          simp only [Option.some.injEq, Res.ok.injEq, Prod.mk.injEq] at he
          rw [← he.1.2]
          have hcr := extEmit_cr _ [10] h b0 u2 hx heq
          exact hcr
    · simp only [Option.some.injEq, Res.ok.injEq, Prod.mk.injEq] at he
      rw [← he.1.2]

/-- Record number of an ok AdvanceRecord outcome, for stating concrete
results (sentinel 0 otherwise). -/
def advCr (r : Option (Res (Bool × ExtUnit))) : Int :=
  match r with
  | some (Res.ok (_, v) _) => v.currentRecordNumber
  | _ => 0

/-- Counterexample to claim C8: on the concrete reading sequential
unformatted unit with a known recordLength, one AdvanceRecord takes
currentRecordNumber from 1 to 3 — an increase of two, because
NextSequentialUnformattedInputRecord already advanced it before the
unconditional tail bumped it again. -/
theorem c8_advance_record_counterexample :
    c9u.isReading = true ∧ c9u.access = Access.sequential ∧
    c9u.recordLength.isSome = true ∧ c9u.currentRecordNumber = 1 ∧
    advCr (c9u.advanceRecord 1 c9h) = 3 ∧ (3 : Int) ≠ 1 + 1 :=
  ⟨rfl, rfl, rfl, rfl, rfl, by decide⟩

/-- Claim C8 (amended): every AdvanceRecord call that returns leaves
positionInRecord and furthestPositionInRecord zero and leftTabLimit
unset, and increases currentRecordNumber — but by two, not one, when
the unit is being read with sequential access and a known recordLength
(the record-resolving callees already increment it and the tail
increments it again); in every other case by exactly one. -/
theorem c8_advance_record_reset_amended (fuel : Nat) (u : ExtUnit) (h : HState)
    (b : Bool) (v : ExtUnit) (h1 : HState)
    (he : u.advanceRecord fuel h = some (Res.ok (b, v) h1)) :
    v.positionInRecord = 0 ∧ v.furthestPositionInRecord = 0 ∧
    v.leftTabLimit = none ∧
    v.currentRecordNumber = u.currentRecordNumber +
      (if u.isReading = true ∧ u.access = Access.sequential ∧
          u.recordLength.isSome = true then 2 else 1) := by
  unfold ExtUnit.advanceRecord at he
  split at he
  case h_1 heq => simp at he
  case h_2 m heq => simp at he
  case h_3 b0 u1 hx heq =>
    have hcr := advStep_cr fuel u h b0 u1 hx heq
    simp only [advTail, Option.some.injEq, Res.ok.injEq, Prod.mk.injEq] at he
    obtain ⟨⟨hb, hv⟩, hh⟩ := he
    rw [← hv]
    refine ⟨rfl, rfl, rfl, ?_⟩
    show u1.currentRecordNumber + 1 = _
    rw [hcr]
    split <;> omega

/-- The concrete unit of the claim C8 witness after one AdvanceRecord:
record counter advanced by two, position and high-water mark reset,
left tab limit cleared, frame moved to the second record. -/
def c8v : ExtUnit :=
  { c9u with
    currentRecordNumber := 3, offsetInFile := 12, frameBase := 8,
    positionInRecord := 0, furthestPositionInRecord := 0, leftTabLimit := none }

/-- Witness for the amended claim C8 at a concrete input: the reading
sequential unformatted unit with known recordLength lands on record
counter 1 + 2 with the three fields reset. -/
theorem c8_advance_record_reset_amended_witness :
    c8v.positionInRecord = 0 ∧ c8v.furthestPositionInRecord = 0 ∧
    c8v.leftTabLimit = none ∧
    c8v.currentRecordNumber = c9u.currentRecordNumber +
      (if c9u.isReading = true ∧ c9u.access = Access.sequential ∧
          c9u.recordLength.isSome = true then 2 else 1) :=
  c8_advance_record_reset_amended 1 c9u c9h true c8v
    { c9h with
      ioStat := IoErrorGeneric,
      ioMsg := some (IoMsg.unfFooterMismatch 2 12 10 11) } (by rfl)
